import Mathlib

/-!
Verification of the tabular stock-analytics engine of the ANTenna repository
(`backend/services/data_manager.py`), shallowly embedded in Lean 4.

Modelling conventions:
* A pandas `DataFrame` is a `List Row` in the frame's row order (insertion
  order of the CSV); every query operation preserves that convention.
* Trading dates are natural numbers (only their linear order and equality
  matter to the code).
* Prices, percentages and turnover are rationals; the Python floats coming
  out of `pd.to_numeric` are finite, so finite-rational arithmetic is the
  faithful model; the places where pandas produces `inf`/`NaN` (division by
  zero in the gap screener, missing lag/lead values) are modelled explicitly
  with `Option`/`PFloat` below.
* `sort_values` / `nlargest` are modelled with a stable sort
  (`List.insertionSort`) on the same key; the `volume` CSV column is never
  read by any of the verified operations and is omitted from `Row`.
-/

/-- One CSV row of the per-market table: date (날짜), instrument code
(종목코드 / 티커), display name (종목명), OHLC prices (시가/고가/저가/종가),
change percentage (전일대비변동률(%)) and turnover (거래대금). -/
structure Row where
  date : ℕ
  code : String
  name : String
  op : ℚ
  hi : ℚ
  lo : ℚ
  close : ℚ
  chg : ℚ
  turnover : ℚ
deriving Repr, DecidableEq, Inhabited

/-- Market selector: `StockDataManager(market)` with market `kr` or `us`. -/
inductive Mk where
  | kr : Mk
  | us : Mk
deriving Repr, DecidableEq

/-- `self.df[self.df['날짜'] == date]`: the slice of the frame for one day. -/
def dayRows (df : List Row) (d : ℕ) : List Row :=
  df.filter (fun r => decide (r.date = d))

/-- `sort_values(col, ascending=False)` on a rational key.  pandas uses an
unstable quicksort whose tie order is an unspecified implementation detail;
a stable descending sort is one admissible refinement, and every statement
proved below is insensitive to the tie order (memberships, thresholds,
lengths and key-sortedness only).  `nlargest(n, col)` (first-occurrence
stable) is modelled as `(sortDesc key l).take n` under the same caveat: no
theorem below identifies the tie-breaking of the two operations. -/
def sortDesc {α : Type} (key : α → ℚ) (l : List α) : List α :=
  List.insertionSort (fun a b => key b ≤ key a) l

theorem sortDesc_perm {α : Type} (key : α → ℚ) (l : List α) :
    (sortDesc key l).Perm l :=
  List.perm_insertionSort _ l

theorem mem_sortDesc {α : Type} {key : α → ℚ} {l : List α} {a : α} :
    a ∈ sortDesc key l ↔ a ∈ l :=
  (sortDesc_perm key l).mem_iff

theorem sortDesc_sorted {α : Type} (key : α → ℚ) (l : List α) :
    (sortDesc key l).Sorted (fun a b => key b ≤ key a) := by
  haveI : IsTotal α (fun a b => key b ≤ key a) := ⟨fun a b => le_total (key b) (key a)⟩
  haveI : IsTrans α (fun a b => key b ≤ key a) := ⟨fun a b c h1 h2 => le_trans h2 h1⟩
  exact List.sorted_insertionSort _ l

theorem sortDesc_take_sorted {α : Type} (key : α → ℚ) (l : List α) (n : ℕ) :
    ((sortDesc key l).take n).Sorted (fun a b => key b ≤ key a) :=
  (sortDesc_sorted key l).sublist (List.take_sublist n _)

theorem mem_of_mem_sortDesc_take {α : Type} {key : α → ℚ} {l : List α} {n : ℕ} {a : α}
    (h : a ∈ (sortDesc key l).take n) : a ∈ l :=
  mem_sortDesc.mp (List.mem_of_mem_take h)

theorem length_sortDesc_take_le {α : Type} (key : α → ℚ) (l : List α) (n : ℕ) :
    ((sortDesc key l).take n).length ≤ n := by
  simp [List.length_take]

/-- `get_kr_day_data`: the KR day snapshot.  First component is the
거래대금 (turnover) list — rows with change ≥ 3.0, turnover-descending,
first 300; second is the 상승률 (rate) list — all rows of the day,
change-descending, first 300. -/
def get_kr_day_data (df : List Row) (d : ℕ) : List Row × List Row :=
  let day := dayRows df d
  if day.isEmpty then ([], [])
  else
    ((sortDesc (fun r => r.turnover) (day.filter (fun r => decide ((3 : ℚ) ≤ r.chg)))).take 300,
     (sortDesc (fun r => r.chg) day).take 300)

/-- C1.  Day-Slice Ranker (KR): the trading-value list holds only rows of
day `d` with `change_pct ≥ 3.0`, is turnover-descending and has length at
most 300; the rate list holds only rows of day `d`, is change-descending
with no threshold and has length at most 300; a day absent from the dataset
yields two empty lists. -/
theorem C1_day_slice_ranker (df : List Row) (d : ℕ) :
    ((get_kr_day_data df d).1.length ≤ 300) ∧
    ((get_kr_day_data df d).2.length ≤ 300) ∧
    (∀ r ∈ (get_kr_day_data df d).1, r ∈ df ∧ r.date = d ∧ (3 : ℚ) ≤ r.chg) ∧
    ((get_kr_day_data df d).1.Sorted (fun a b => b.turnover ≤ a.turnover)) ∧
    (∀ r ∈ (get_kr_day_data df d).2, r ∈ df ∧ r.date = d) ∧
    ((get_kr_day_data df d).2.Sorted (fun a b => b.chg ≤ a.chg)) ∧
    (dayRows df d = [] → (get_kr_day_data df d).1 = [] ∧ (get_kr_day_data df d).2 = []) := by
  unfold get_kr_day_data
  by_cases hday : (dayRows df d).isEmpty
  · simp [hday]
  · simp only [hday, if_false]
    refine ⟨length_sortDesc_take_le _ _ _, length_sortDesc_take_le _ _ _, ?_, ?_, ?_, ?_, ?_⟩
    · intro r hr
      have hr2 := mem_of_mem_sortDesc_take hr
      have hr3 := List.mem_filter.mp hr2
      have hr4 := List.mem_filter.mp hr3.1
      exact ⟨hr4.1, by simpa using hr4.2, by simpa using hr3.2⟩
    · exact sortDesc_take_sorted _ _ _
    · intro r hr
      have hr2 := mem_of_mem_sortDesc_take hr
      have hr3 := List.mem_filter.mp hr2
      exact ⟨hr3.1, by simpa using hr3.2⟩
    · exact sortDesc_take_sorted _ _ _
    · intro h
      exact absurd (by simp [h]) hday

/-- `_filter_by_volume(data)`: turnover-descending top 300 of the rows with
change ≥ 3.0 (the source's default arguments `min_rate=3.0, limit=300` are
the only ones ever used). -/
def filter_by_volume (data : List Row) : List Row :=
  (sortDesc (fun r => r.turnover) (data.filter (fun r => decide ((3 : ℚ) ≤ r.chg)))).take 300

/-- `_filter_by_rate(data)`: change-descending top 300 (default `limit=300`). -/
def filter_by_rate (data : List Row) : List Row :=
  (sortDesc (fun r => r.chg) data).take 300

/-- The six ranked lists of the US day snapshot, in the order of the keys of
the dict returned by `get_us_day_data`. -/
structure UsDaySnapshot where
  high_price_volume : List Row
  high_price_rate : List Row
  mid_price_volume : List Row
  mid_price_rate : List Row
  low_price_volume : List Row
  low_price_rate : List Row
deriving Repr, DecidableEq

/-- `get_us_day_data`: bucket the day slice by closing price
(high: `종가 ≥ 10`, mid: `5 ≤ 종가 < 10`, low: `종가 < 5`), then rank each
bucket by turnover and by rate. -/
def get_us_day_data (df : List Row) (d : ℕ) : UsDaySnapshot :=
  let day := dayRows df d
  if day.isEmpty then ⟨[], [], [], [], [], []⟩
  else
    let high := day.filter (fun r => decide ((10 : ℚ) ≤ r.close))
    let mid := day.filter (fun r => decide ((5 : ℚ) ≤ r.close ∧ r.close < 10))
    let low := day.filter (fun r => decide (r.close < (5 : ℚ)))
    ⟨filter_by_volume high, filter_by_rate high,
     filter_by_volume mid, filter_by_rate mid,
     filter_by_volume low, filter_by_rate low⟩

/-- Python `str.startswith`, expressed on the character lists (the byte-level
`String.startsWith` does not reduce in the kernel). -/
def strStartsWith (s pre : String) : Bool := pre.data.isPrefixOf s.data

/-- Python `str.endswith`, on character lists. -/
def strEndsWith (s post : String) : Bool := post.data.isSuffixOf s.data

/-- Python's `in` / pandas `str.contains` substring test, on character lists. -/
def strContains (s sub : String) : Bool :=
  (List.range (s.data.length + 1)).any (fun i => sub.data.isPrefixOf (s.data.drop i))

/-- `_get_us_price_filtered_data(day_data, category)`: the price bucket
selected by the category name's prefix (anything that is not `high_price*`
or `mid_price*` falls into the low bucket). -/
def get_us_price_filtered_data (day : List Row) (category : String) : List Row :=
  if strStartsWith category "high_price" then day.filter (fun r => decide ((10 : ℚ) ≤ r.close))
  else if strStartsWith category "mid_price" then
    day.filter (fun r => decide ((5 : ℚ) ≤ r.close ∧ r.close < 10))
  else day.filter (fun r => decide (r.close < (5 : ℚ)))

/-- `_get_top300_stocks(date, category)`: the codes of the top-300 rows of
the day (bucket-filtered for the US market); the Python function returns a
`set`, modelled as the list of codes of the ranked rows (only membership and
emptiness of the result are ever used). -/
def get_top300_stocks (mk : Mk) (df : List Row) (d : ℕ) (category : String) : List String :=
  let day := dayRows df d
  if day.isEmpty then []
  else
    let day2 := if mk = Mk.us then get_us_price_filtered_data day category else day
    if category = "trading_value" ∨ strEndsWith category "_volume" then
      ((sortDesc (fun r => r.turnover)
          (day2.filter (fun r => decide ((3 : ℚ) ≤ r.chg)))).take 300).map (fun r => r.code)
    else
      ((sortDesc (fun r => r.chg) day2).take 300).map (fun r => r.code)

/-- A single-row dataset whose one row closes at 7: it falls in the mid
bucket (5 ≤ 7 < 10), so the low bucket of the US day snapshot is empty while
the set of day-`1` rows with `close < 10` is not. -/
def dfC8 : List Row := [⟨1, "A", "Alpha", 7, 7, 7, 7, 5, 100⟩]

/-- C8 counterexample.  The claim puts every row with `close < 10` in the
`low` bucket; the code's low bucket is `close < 5`, so the day's row with
close 7 is missing from every low-bucket list (it sits in the mid bucket). -/
theorem C8_low_bucket_counterexample :
    ¬ (∀ r ∈ dayRows dfC8 1, r.close < 10 →
        r ∈ (get_us_day_data dfC8 1).low_price_rate) := by
  decide

/-- C8 (amended).  US price buckets: `high` restricts the day slice to rows
with `close ≥ 10`, `mid` to `5 ≤ close < 10`, and `low` to `close < 5`
(the claim said `close < 10` for `low`), each before ranking; an absent date
yields the all-empty snapshot. -/
theorem C8_us_price_buckets (df : List Row) (d : ℕ) :
    (∀ r ∈ (get_us_day_data df d).high_price_volume, r ∈ df ∧ r.date = d ∧ (10 : ℚ) ≤ r.close) ∧
    (∀ r ∈ (get_us_day_data df d).high_price_rate, r ∈ df ∧ r.date = d ∧ (10 : ℚ) ≤ r.close) ∧
    (∀ r ∈ (get_us_day_data df d).mid_price_volume,
        r ∈ df ∧ r.date = d ∧ (5 : ℚ) ≤ r.close ∧ r.close < 10) ∧
    (∀ r ∈ (get_us_day_data df d).mid_price_rate,
        r ∈ df ∧ r.date = d ∧ (5 : ℚ) ≤ r.close ∧ r.close < 10) ∧
    (∀ r ∈ (get_us_day_data df d).low_price_volume, r ∈ df ∧ r.date = d ∧ r.close < 5) ∧
    (∀ r ∈ (get_us_day_data df d).low_price_rate, r ∈ df ∧ r.date = d ∧ r.close < 5) ∧
    (dayRows df d = [] → get_us_day_data df d = ⟨[], [], [], [], [], []⟩) := by
  have hv : ∀ (p : Row → Bool) (r : Row), r ∈ filter_by_volume ((dayRows df d).filter p) →
      r ∈ df ∧ r.date = d ∧ p r = true := by
    intro p r hr
    have h1 := List.mem_filter.mp (List.mem_filter.mp (mem_of_mem_sortDesc_take hr)).1
    have h2 := List.mem_filter.mp h1.1
    exact ⟨h2.1, by simpa using h2.2, h1.2⟩
  have hr : ∀ (p : Row → Bool) (r : Row), r ∈ filter_by_rate ((dayRows df d).filter p) →
      r ∈ df ∧ r.date = d ∧ p r = true := by
    intro p r hr
    have h1 := List.mem_filter.mp (mem_of_mem_sortDesc_take hr)
    have h2 := List.mem_filter.mp h1.1
    exact ⟨h2.1, by simpa using h2.2, h1.2⟩
  unfold get_us_day_data
  by_cases hday : (dayRows df d).isEmpty
  · simp [hday]
  · simp only [hday, if_false]
    refine ⟨?_, ?_, ?_, ?_, ?_, ?_, ?_⟩
    · intro r h
      obtain ⟨h1, h2, h3⟩ := hv _ r h
      exact ⟨h1, h2, by simpa using h3⟩
    · intro r h
      obtain ⟨h1, h2, h3⟩ := hr _ r h
      exact ⟨h1, h2, by simpa using h3⟩
    · intro r h
      obtain ⟨h1, h2, h3⟩ := hv _ r h
      have h4 : (5 : ℚ) ≤ r.close ∧ r.close < 10 := by simpa using h3
      exact ⟨h1, h2, h4.1, h4.2⟩
    · intro r h
      obtain ⟨h1, h2, h3⟩ := hr _ r h
      have h4 : (5 : ℚ) ≤ r.close ∧ r.close < 10 := by simpa using h3
      exact ⟨h1, h2, h4.1, h4.2⟩
    · intro r h
      obtain ⟨h1, h2, h3⟩ := hv _ r h
      exact ⟨h1, h2, by simpa using h3⟩
    · intro r h
      obtain ⟨h1, h2, h3⟩ := hr _ r h
      exact ⟨h1, h2, by simpa using h3⟩
    · intro h
      exact absurd (by simp [h]) hday

/-- `_get_sorted_dates`: the sorted list of distinct trading dates
(`sorted(pd.to_datetime(df['날짜'].unique()))`).  `unique` keeps first
occurrences; after the ascending sort the result is the same list for any
duplicate-removal order, so `List.dedup` is used for its lemma support. -/
def sortedDates (df : List Row) : List ℕ :=
  List.insertionSort (fun a b => a ≤ b) ((df.map (fun r => r.date)).dedup)

theorem sortedDates_perm (df : List Row) :
    (sortedDates df).Perm ((df.map (fun r => r.date)).dedup) :=
  List.perm_insertionSort _ _

theorem mem_sortedDates {df : List Row} {d : ℕ} :
    d ∈ sortedDates df ↔ ∃ r ∈ df, r.date = d := by
  rw [(sortedDates_perm df).mem_iff, List.mem_dedup, List.mem_map]

theorem sortedDates_nodup (df : List Row) : (sortedDates df).Nodup :=
  ((sortedDates_perm df).nodup_iff).mpr (List.nodup_dedup _)

/-- `get_pullback_stocks(base_date, days_ago, category)`: step `daysAgo`
positions back in the sorted distinct-date index, take that day's top-300
codes, and return `baseDate`'s rows of those codes that closed down,
turnover-descending.  The per-row output dict (rank, rounded fields) is a
position-preserving projection of these rows and is not modelled. -/
def get_pullback_stocks (mk : Mk) (df : List Row) (base : ℕ) (daysAgo : ℕ)
    (category : String) : List Row :=
  if df.isEmpty then []
  else if base ∈ sortedDates df then
    if (sortedDates df).indexOf base < daysAgo then []
    else if (get_top300_stocks mk df
        ((sortedDates df).getD ((sortedDates df).indexOf base - daysAgo) 0) category).isEmpty
      then []
    else if (dayRows df base).isEmpty then []
    else
      sortDesc (fun r => r.turnover)
        ((dayRows df base).filter (fun r =>
          (get_top300_stocks mk df
            ((sortedDates df).getD ((sortedDates df).indexOf base - daysAgo) 0)
            category).contains r.code && decide (r.chg < 0)))
  else []

/-- C6.  Pullback Scanner: empty whenever `baseDate` is absent from the
distinct-date index or stepping `daysAgo` back leaves the index; otherwise
every returned row is a `baseDate` row of the dataset whose code is in the
reference date's top-300 set and whose change is strictly negative, and the
rows are turnover-descending. -/
theorem C6_pullback_scanner (mk : Mk) (df : List Row) (base : ℕ) (daysAgo : ℕ)
    (category : String) :
    (base ∉ sortedDates df → get_pullback_stocks mk df base daysAgo category = []) ∧
    ((sortedDates df).indexOf base < daysAgo →
        get_pullback_stocks mk df base daysAgo category = []) ∧
    (∀ r ∈ get_pullback_stocks mk df base daysAgo category,
        r ∈ df ∧ r.date = base ∧
        r.code ∈ get_top300_stocks mk df
          ((sortedDates df).getD ((sortedDates df).indexOf base - daysAgo) 0) category ∧
        r.chg < 0) ∧
    (get_pullback_stocks mk df base daysAgo category).Sorted
      (fun a b => b.turnover ≤ a.turnover) := by
  unfold get_pullback_stocks
  split_ifs with h1 h2 h3 h4 h5
  · exact ⟨fun _ => rfl, fun _ => rfl, by simp, by simp⟩
  · exact ⟨fun _ => rfl, fun _ => rfl, by simp, by simp⟩
  · exact ⟨fun _ => rfl, fun _ => rfl, by simp, by simp⟩
  · exact ⟨fun _ => rfl, fun _ => rfl, by simp, by simp⟩
  · refine ⟨fun h => absurd h2 h, fun h => absurd h h3, ?_, sortDesc_sorted _ _⟩
    intro r hr
    have hf := List.mem_filter.mp (mem_sortDesc.mp hr)
    have hd := List.mem_filter.mp hf.1
    have hc := hf.2
    rw [Bool.and_eq_true] at hc
    exact ⟨hd.1, by simpa using hd.2, by simpa using hc.1, by simpa using hc.2⟩
  · exact ⟨fun _ => rfl, fun _ => rfl, by simp, by simp⟩

/-- The `days` window of index positions ending at `baseDate`, in
chronological order: `[available_dates[base_idx - i] for i in range(days)]`
reversed. -/
def checkDates (df : List Row) (base : ℕ) (days : ℕ) : List ℕ :=
  ((List.range days).map
    (fun i => (sortedDates df).getD ((sortedDates df).indexOf base - i) 0)).reverse

/-- The codes of the day's rows with `전일대비변동률(%) > 0`
(`rising_codes` in the scan loop). -/
def risingCodes (df : List Row) (d : ℕ) : List String :=
  ((dayRows df d).filter (fun r => decide ((0 : ℚ) < r.chg))).map (fun r => r.code)

/-- The candidate-narrowing loop of `get_consecutive_rise_stocks`: walk the
window dates, abort (`none`) as soon as a date has no rows, otherwise
intersect the candidate set with that day's rising codes. -/
def riseScan (df : List Row) : List ℕ → List String → Option (List String)
  | [], cand => some cand
  | d :: ds, cand =>
      if (dayRows df d).isEmpty then none
      else riseScan df ds (cand.filter (fun c => (risingCodes df d).contains c))

theorem riseScan_mem (df : List Row) : ∀ (ds : List ℕ) (cand res : List String),
    riseScan df ds cand = some res →
    ∀ c ∈ res, c ∈ cand ∧ ∀ d ∈ ds, c ∈ risingCodes df d := by
  intro ds
  induction ds with
  | nil =>
      intro cand res h c hc
      rw [riseScan] at h
      cases h
      exact ⟨hc, by simp⟩
  | cons d ds ih =>
      intro cand res h c hc
      rw [riseScan] at h
      by_cases hday : (dayRows df d).isEmpty
      · rw [if_pos hday] at h; cases h
      · rw [if_neg hday] at h
        obtain ⟨h1, h2⟩ := ih _ _ h c hc
        have h3 := List.mem_filter.mp h1
        refine ⟨h3.1, ?_⟩
        intro e he
        rcases List.mem_cons.mp he with he | he
        · subst he; simpa using h3.2
        · exact h2 e he

theorem riseScan_none (df : List Row) : ∀ (ds : List ℕ) (cand : List String),
    (∃ d ∈ ds, dayRows df d = []) → riseScan df ds cand = none := by
  intro ds
  induction ds with
  | nil => intro cand h; simp at h
  | cons d ds ih =>
      intro cand h
      rw [riseScan]
      by_cases hday : (dayRows df d).isEmpty
      · rw [if_pos hday]
      · rw [if_neg hday]
        apply ih
        rcases h with ⟨e, he, hde⟩
        rcases List.mem_cons.mp he with he | he
        · subst he; exact absurd (by simp [hde]) hday
        · exact ⟨e, he, hde⟩

/-- `get_consecutive_rise_stocks(base_date, consecutive_days, category)`:
seed with the top-300 of the earliest window day, keep only codes rising on
every window day (aborting to empty if any window day has no rows), and
return `baseDate`'s rows of the surviving codes, turnover-descending.  The
per-row output dict projection (rank, rounded fields, `연속일수`) is not
modelled. -/
def get_consecutive_rise_stocks (mk : Mk) (df : List Row) (base : ℕ) (days : ℕ)
    (category : String) : List Row :=
  if df.isEmpty then []
  else if base ∈ sortedDates df then
    if (sortedDates df).indexOf base < days - 1 then []
    else if (get_top300_stocks mk df ((checkDates df base days).getD 0 0) category).isEmpty
      then []
    else
      match riseScan df (checkDates df base days)
          (get_top300_stocks mk df ((checkDates df base days).getD 0 0) category) with
      | none => []
      | some cands =>
          if cands.isEmpty then []
          else
            sortDesc (fun r => r.turnover)
              ((dayRows df base).filter (fun r => cands.contains r.code))
  else []

/-- The end-to-end dataset of the claim: 5 trading days, instrument X rises
on days 2–4 (change 5 ≥ 3, so it is in day 2's trading-value top-300) and
falls on day 5; instrument Y falls every day. -/
def dfX : List Row :=
  [⟨1, "X", "XCorp", 10, 10, 10, 10, 0, 100⟩, ⟨1, "Y", "YCorp", 10, 10, 10, 10, -1, 50⟩,
   ⟨2, "X", "XCorp", 10, 10, 10, 10, 5, 100⟩, ⟨2, "Y", "YCorp", 10, 10, 10, 10, -1, 50⟩,
   ⟨3, "X", "XCorp", 10, 10, 10, 10, 5, 100⟩, ⟨3, "Y", "YCorp", 10, 10, 10, 10, -1, 50⟩,
   ⟨4, "X", "XCorp", 10, 10, 10, 10, 5, 100⟩, ⟨4, "Y", "YCorp", 10, 10, 10, 10, -1, 50⟩,
   ⟨5, "X", "XCorp", 10, 10, 10, 10, -2, 100⟩, ⟨5, "Y", "YCorp", 10, 10, 10, 10, -1, 50⟩]

/-- C2.  Consecutive-Rise Scanner: every returned row is a `baseDate` row
whose code is in the top-300 set of the earliest window day and rises
(`change_pct > 0`) on every window date; a window date with zero rows makes
the result empty; and on the 2-instrument 5-day dataset `dfX`,
`consecutiveRise(day4, 3, trading_value)` returns exactly X while
`consecutiveRise(day4, 4, trading_value)` is empty. -/
theorem C2_consecutive_rise_scanner (mk : Mk) (df : List Row) (base days : ℕ)
    (category : String) (hdays : 1 ≤ days) :
    (∀ r ∈ get_consecutive_rise_stocks mk df base days category,
        r ∈ df ∧ r.date = base ∧
        r.code ∈ get_top300_stocks mk df ((checkDates df base days).getD 0 0) category ∧
        ∀ d ∈ checkDates df base days,
          ∃ x ∈ df, x.date = d ∧ x.code = r.code ∧ (0 : ℚ) < x.chg) ∧
    ((∃ d ∈ checkDates df base days, dayRows df d = []) →
        get_consecutive_rise_stocks mk df base days category = []) ∧
    ((get_consecutive_rise_stocks Mk.kr dfX 4 3 "trading_value").map (fun r => r.code)
        = ["X"]) ∧
    (get_consecutive_rise_stocks Mk.kr dfX 4 4 "trading_value" = []) := by
  refine ⟨?_, ?_, by decide, by decide⟩
  · intro r hr
    unfold get_consecutive_rise_stocks at hr
    split_ifs at hr with h1 h2 h3 h4
    · simp at hr
    · simp at hr
    · simp at hr
    · split at hr
      · simp at hr
      · rename_i cands hscan
        split_ifs at hr with hc
        · simp at hr
        · have hf := List.mem_filter.mp (mem_sortDesc.mp hr)
          have hd := List.mem_filter.mp hf.1
          have hcand : r.code ∈ cands := by simpa using hf.2
          obtain ⟨hseed, hrise⟩ := riseScan_mem df _ _ _ hscan r.code hcand
          refine ⟨hd.1, by simpa using hd.2, hseed, ?_⟩
          intro d hdmem
          have hx := hrise d hdmem
          obtain ⟨x, hx1, hx2⟩ := List.mem_map.mp hx
          have hx3 := List.mem_filter.mp hx1
          have hx4 := List.mem_filter.mp hx3.1
          exact ⟨x, hx4.1, by simpa using hx4.2, hx2, by simpa using hx3.2⟩
    · simp at hr
  · intro hmissing
    unfold get_consecutive_rise_stocks
    split_ifs with h1 h2 h3 h4
    · rfl
    · rfl
    · rfl
    · rw [riseScan_none df _ _ hmissing]
    · rfl

/-- Python's `lst[-n:]` for `n > 0`: the last `n` elements. -/
def takeLast {α : Type} (n : ℕ) (l : List α) : List α := l.drop (l.length - n)

/-- `past_dates = [d for d in available_dates if d <= base][-business_days:]`
with `business_days = weeks*5`.  Python's `lst[-0:]` is the whole list, so
`weeks = 0` keeps every date at or before `base`. -/
def pastDatesOf (df : List Row) (base : ℕ) (weeks : ℕ) : List ℕ :=
  if weeks * 5 = 0 then (sortedDates df).filter (fun d => decide (d ≤ base))
  else takeLast (weeks * 5) ((sortedDates df).filter (fun d => decide (d ≤ base)))

/-- The per-day top-300 ranking computed inline by the loop of
`get_frequent_stocks` (textually duplicating `_get_top300_stocks`): bucket
filter for the US market, then turnover-descending top 300 of the change ≥ 3
rows for value categories, change-descending top 300 otherwise; a day with
no rows contributes nothing (`continue`). -/
def top300RowsOn (mk : Mk) (df : List Row) (d : ℕ) (category : String) : List Row :=
  let day := dayRows df d
  let day2 := if mk = Mk.us then get_us_price_filtered_data day category else day
  if category = "trading_value" ∨ strEndsWith category "_volume" then
    (sortDesc (fun r => r.turnover) (day2.filter (fun r => decide ((3 : ℚ) ≤ r.chg)))).take 300
  else (sortDesc (fun r => r.chg) day2).take 300

/-- `latest_day_data[latest_day_data[code_col] == code].iloc[0]['거래대금']`
with the `latest_trading_value.get(code, 0)` default: the turnover of the
first row of the latest window day carrying this code, or 0. -/
def latestTurnover (df : List Row) (latest : ℕ) (c : String) : ℚ :=
  match (dayRows df latest).find? (fun r => decide (r.code = c)) with
  | some r => r.turnover
  | none => 0

/-- Python `int(...)`: truncation toward zero. -/
def pyInt (q : ℚ) : ℤ := if q < 0 then -(Int.floor (-q)) else Int.floor q

/-- The `(code, appearance-count)` pairs of the frequency scan, in first
appearance order (dict insertion order): the count of a code is the number
of rows carrying it across all window days' top-300 lists. -/
def freqScored (mk : Mk) (df : List Row) (pastDates : List ℕ) (category : String) :
    List (String × ℕ) :=
  ((pastDates.flatMap (fun d => top300RowsOn mk df d category)).map
      (fun r => r.code)).eraseDups.map
    (fun c => (c, ((pastDates.flatMap (fun d => top300RowsOn mk df d category)).map
      (fun r => r.code)).count c))

/-- `stock_info[code]`: the display name recorded from the first top-300 row
carrying this code. -/
def freqName (mk : Mk) (df : List Row) (pastDates : List ℕ) (category : String)
    (c : String) : String :=
  match (pastDates.flatMap (fun d => top300RowsOn mk df d category)).find?
      (fun r => decide (r.code = c)) with
  | some r => r.name
  | none => ""

/-- `sorted(stock_counts.items(), key=lambda x: (x[1], latest.get(x[0], 0)),
reverse=True)`: descending lexicographic order on (count, latest turnover). -/
def freqGE (df : List Row) (latest : ℕ) (a b : String × ℕ) : Prop :=
  b.2 < a.2 ∨ (b.2 = a.2 ∧ latestTurnover df latest b.1 ≤ latestTurnover df latest a.1)

instance freqGE_decidable (df : List Row) (latest : ℕ) :
    DecidableRel (freqGE df latest) := fun _ _ => by
  unfold freqGE
  infer_instance

/-- One output item of `get_frequent_stocks`: 순위, code, 종목명, 등장횟수,
기간영업일수, 최근거래대금. -/
structure FreqItem where
  rank : ℕ
  code : String
  name : String
  count : ℕ
  windowDays : ℕ
  latestTv : ℤ
deriving Repr, DecidableEq, Inhabited

/-- The `for rank, (code, count) in enumerate(sorted_stocks, 1)` output
loop. -/
def freqItemsFrom (wd latest : ℕ) (df : List Row) (nameOf : String → String) :
    ℕ → List (String × ℕ) → List FreqItem
  | _, [] => []
  | k, (c, cnt) :: rest =>
      ⟨k, c, nameOf c, cnt, wd, pyInt (latestTurnover df latest c)⟩ ::
        freqItemsFrom wd latest df nameOf (k + 1) rest

/-- `get_frequent_stocks(base_date, weeks, category)`: count appearances in
the per-day top-300 over the trailing window, rank by (count, latest-day
turnover) descending, keep 100. -/
def get_frequent_stocks (mk : Mk) (df : List Row) (base : ℕ) (weeks : ℕ)
    (category : String) : List FreqItem :=
  if df.isEmpty then []
  else if (pastDatesOf df base weeks).isEmpty then []
  else
    freqItemsFrom (pastDatesOf df base weeks).length
      (((pastDatesOf df base weeks).getLast?).getD 0) df
      (freqName mk df (pastDatesOf df base weeks) category) 1
      ((List.insertionSort
          (freqGE df (((pastDatesOf df base weeks).getLast?).getD 0))
          (freqScored mk df (pastDatesOf df base weeks) category)).take 100)

/-- The dataset invariant `(instrument_id, date) is unique` of the spec's
data model. -/
abbrev DistinctKeys (df : List Row) : Prop :=
  (df.map (fun r => (r.code, r.date))).Nodup

theorem dayRows_codes_nodup {df : List Row} (h : DistinctKeys df) (d : ℕ) :
    ((dayRows df d).map (fun r => r.code)).Nodup := by
  have h1 : ((dayRows df d).map (fun r => (r.code, r.date))).Nodup :=
    List.Nodup.sublist ((List.filter_sublist df).map _) h
  have h2 : (dayRows df d).map (fun r => (r.code, r.date))
      = ((dayRows df d).map (fun r => r.code)).map (fun c => (c, d)) := by
    rw [List.map_map]
    apply List.map_congr_left
    intro r hr
    have := (List.mem_filter.mp hr).2
    simp only [Function.comp]
    congr 1
    simpa using this
  rw [h2] at h1
  exact List.Nodup.of_map _ h1

theorem codes_nodup_filter {l : List Row} (p : Row → Bool)
    (h : (l.map (fun r => r.code)).Nodup) :
    ((l.filter p).map (fun r => r.code)).Nodup :=
  List.Nodup.sublist ((List.filter_sublist l).map _) h

theorem codes_nodup_sortDesc {l : List Row} (key : Row → ℚ)
    (h : (l.map (fun r => r.code)).Nodup) :
    ((sortDesc key l).map (fun r => r.code)).Nodup :=
  (((sortDesc_perm key l).map _).nodup_iff).mpr h

theorem codes_nodup_take {l : List Row} (n : ℕ)
    (h : (l.map (fun r => r.code)).Nodup) :
    ((l.take n).map (fun r => r.code)).Nodup :=
  List.Nodup.sublist ((List.take_sublist n l).map _) h

theorem us_bucket_codes_nodup {day : List Row} (category : String)
    (h : (day.map (fun r => r.code)).Nodup) :
    ((get_us_price_filtered_data day category).map (fun r => r.code)).Nodup := by
  unfold get_us_price_filtered_data
  split_ifs <;> exact codes_nodup_filter _ h

theorem top300RowsOn_codes_nodup {df : List Row} (h : DistinctKeys df)
    (mk : Mk) (d : ℕ) (category : String) :
    ((top300RowsOn mk df d category).map (fun r => r.code)).Nodup := by
  have hday := dayRows_codes_nodup h d
  unfold top300RowsOn
  dsimp only
  split_ifs
  all_goals first
    | exact codes_nodup_take _ (codes_nodup_sortDesc _
        (codes_nodup_filter _ (us_bucket_codes_nodup _ hday)))
    | exact codes_nodup_take _ (codes_nodup_sortDesc _ (codes_nodup_filter _ hday))
    | exact codes_nodup_take _ (codes_nodup_sortDesc _ (us_bucket_codes_nodup _ hday))
    | exact codes_nodup_take _ (codes_nodup_sortDesc _ hday)

theorem count_flatMap_top300 {df : List Row} (h : DistinctKeys df)
    (mk : Mk) (category : String) : ∀ (ds : List ℕ) (c : String),
    ((ds.flatMap (fun d => top300RowsOn mk df d category)).map (fun r => r.code)).count c
      = ds.countP (fun d =>
          decide (c ∈ (top300RowsOn mk df d category).map (fun r => r.code))) := by
  intro ds
  induction ds with
  | nil => intro c; simp
  | cons d ds ih =>
      intro c
      rw [List.flatMap_cons, List.map_append, List.count_append, List.countP_cons, ih c]
      have hnd := top300RowsOn_codes_nodup h mk d category
      by_cases hc : c ∈ (top300RowsOn mk df d category).map (fun r => r.code)
      · rw [List.count_eq_one_of_mem hnd hc, if_pos (by simpa using hc)]
        omega
      · rw [List.count_eq_zero_of_not_mem hc, if_neg (by simpa using hc)]
        omega

theorem mem_freqItemsFrom {wd latest : ℕ} {df : List Row} {nameOf : String → String} :
    ∀ (k : ℕ) (l : List (String × ℕ)) (it : FreqItem),
    it ∈ freqItemsFrom wd latest df nameOf k l →
    ∃ p ∈ l, it.code = p.1 ∧ it.count = p.2 ∧ it.windowDays = wd ∧
      it.latestTv = pyInt (latestTurnover df latest p.1) := by
  intro k l
  induction l generalizing k with
  | nil => intro it h; simp [freqItemsFrom] at h
  | cons p rest ih =>
      intro it h
      rw [show p = (p.1, p.2) from rfl, freqItemsFrom] at h
      rcases List.mem_cons.mp h with h | h
      · exact ⟨p, List.mem_cons_self _ _, by rw [h], by rw [h], by rw [h], by rw [h]⟩
      · obtain ⟨q, hq, hrest⟩ := ih _ it h
        exact ⟨q, List.mem_cons_of_mem _ hq, hrest⟩

theorem freqItemsFrom_pairwise {wd latest : ℕ} {df : List Row} {nameOf : String → String} :
    ∀ (k : ℕ) (l : List (String × ℕ)), l.Pairwise (freqGE df latest) →
    (freqItemsFrom wd latest df nameOf k l).Pairwise
      (fun a b => b.count < a.count ∨ (b.count = a.count ∧
        latestTurnover df latest b.code ≤ latestTurnover df latest a.code)) := by
  intro k l
  induction l generalizing k with
  | nil => intro _; simp [freqItemsFrom]
  | cons p rest ih =>
      intro hp
      rw [show p = (p.1, p.2) from rfl, freqItemsFrom]
      rcases List.pairwise_cons.mp hp with ⟨hhead, htail⟩
      refine List.pairwise_cons.mpr ⟨?_, ih _ htail⟩
      intro it hit
      obtain ⟨q, hq, hcode, hcount, _, _⟩ := mem_freqItemsFrom _ _ _ hit
      have := hhead q hq
      unfold freqGE at this
      rw [hcode, hcount]
      simpa using this

theorem freqGE_is_total (df : List Row) (latest : ℕ) :
    IsTotal (String × ℕ) (freqGE df latest) := by
  constructor
  intro a b
  unfold freqGE
  rcases lt_trichotomy a.2 b.2 with h | h | h
  · exact Or.inr (Or.inl h)
  · rcases le_total (latestTurnover df latest b.1) (latestTurnover df latest a.1) with h2 | h2
    · exact Or.inl (Or.inr ⟨h.symm, h2⟩)
    · exact Or.inr (Or.inr ⟨h, h2⟩)
  · exact Or.inl (Or.inl h)

theorem freqGE_is_trans (df : List Row) (latest : ℕ) :
    IsTrans (String × ℕ) (freqGE df latest) := by
  constructor
  intro a b c hab hbc
  unfold freqGE at hab hbc ⊢
  rcases hab with h1 | ⟨h1, h2⟩
  · rcases hbc with h3 | ⟨h3, h4⟩
    · exact Or.inl (h3.trans h1)
    · exact Or.inl (h3 ▸ h1)
  · rcases hbc with h3 | ⟨h3, h4⟩
    · exact Or.inl (h1 ▸ h3)
    · exact Or.inr ⟨h3.trans h1, h4.trans h2⟩

theorem length_freqItemsFrom {wd latest : ℕ} {df : List Row} {nameOf : String → String} :
    ∀ (k : ℕ) (l : List (String × ℕ)),
    (freqItemsFrom wd latest df nameOf k l).length = l.length := by
  intro k l
  induction l generalizing k with
  | nil => rfl
  | cons p rest ih => rw [show p = (p.1, p.2) from rfl, freqItemsFrom]; simp [ih]

theorem pyInt_zero : pyInt 0 = 0 := by
  unfold pyInt
  norm_num

theorem latestTurnover_eq_zero {df : List Row} {latest : ℕ} {c : String}
    (h : ∀ r ∈ dayRows df latest, r.code ≠ c) : latestTurnover df latest c = 0 := by
  unfold latestTurnover
  have hfind : (dayRows df latest).find? (fun r => decide (r.code = c)) = none :=
    List.find?_eq_none.mpr (by intro x hx; simpa using h x hx)
  rw [hfind]

/-- A one-row dataset (date 1, change 5, turnover 10); with `weeks = 0` the
Python slice `[-0:]` keeps the whole date index, so `get_frequent_stocks`
still counts day 1 and reports an appearance count of 1. -/
def dfC3 : List Row := [⟨1, "A", "Alpha", 10, 10, 10, 10, 5, 10⟩]

/-- C3 counterexample.  At `weeks = 0` the claim's window — the `weeks*5`
most recent trading dates at or before the base date — is empty, so every
returned instrument would need `appearance_count = 0`; the code returns the
instrument with count 1 because `[-0:]` slices to the whole list. -/
theorem C3_weeks0_counterexample :
    ¬ (∀ it ∈ get_frequent_stocks Mk.kr dfC3 1 0 "trading_value",
        it.count = (takeLast (0 * 5)
            ((sortedDates dfC3).filter (fun d => decide (d ≤ 1)))).countP
          (fun d => decide (it.code ∈
            (top300RowsOn Mk.kr dfC3 d "trading_value").map (fun r => r.code)))) := by
  decide

/-- C3 (amended with `weeks ≥ 1`, forced by the `weeks = 0` Python slice
quirk).  Frequency Scanner: the window is the `weeks*5` most recent distinct
trading dates at or before `baseDate` (a suffix of the date index, fewer if
fewer exist); each returned item's `appearance_count` counts the window
dates whose top-300 set contains the instrument; at most 100 items, ordered
by (count, last-window-day turnover) descending, where that turnover is read
from the last window day's rows regardless of its top-300 and defaults to 0
when the instrument has no row that day. -/
theorem C3_frequency_scanner (mk : Mk) (df : List Row) (base weeks : ℕ)
    (category : String) (hw : 1 ≤ weeks) (hkeys : DistinctKeys df) :
    ((get_frequent_stocks mk df base weeks category).length ≤ 100) ∧
    ((pastDatesOf df base weeks).length ≤ weeks * 5) ∧
    (pastDatesOf df base weeks <:+ (sortedDates df).filter (fun d => decide (d ≤ base))) ∧
    (∀ it ∈ get_frequent_stocks mk df base weeks category,
        it.count = (pastDatesOf df base weeks).countP
          (fun d => decide (it.code ∈
            (top300RowsOn mk df d category).map (fun r => r.code))) ∧
        it.windowDays = (pastDatesOf df base weeks).length ∧
        it.latestTv = pyInt (latestTurnover df
          (((pastDatesOf df base weeks).getLast?).getD 0) it.code)) ∧
    (∀ it ∈ get_frequent_stocks mk df base weeks category,
        (∀ r ∈ dayRows df (((pastDatesOf df base weeks).getLast?).getD 0),
            r.code ≠ it.code) →
        it.latestTv = 0) ∧
    ((get_frequent_stocks mk df base weeks category).Pairwise
      (fun a b => b.count < a.count ∨ (b.count = a.count ∧
        latestTurnover df (((pastDatesOf df base weeks).getLast?).getD 0) b.code ≤
        latestTurnover df (((pastDatesOf df base weeks).getLast?).getD 0) a.code))) := by
  refine ⟨?_, ?_, ?_, ?_, ?_, ?_⟩
  · unfold get_frequent_stocks
    split_ifs
    · simp
    · simp
    · rw [length_freqItemsFrom]
      exact List.length_take_le _ _
  · unfold pastDatesOf
    rw [if_neg (by omega : ¬ weeks * 5 = 0)]
    unfold takeLast
    rw [List.length_drop]
    omega
  · unfold pastDatesOf
    split_ifs
    · exact List.suffix_refl _
    · exact List.drop_suffix _ _
  · intro it hit
    unfold get_frequent_stocks at hit
    split_ifs at hit with h1 h2
    · simp at hit
    · simp at hit
    · obtain ⟨p, hp, hcode, hcount, hwd, hltv⟩ := mem_freqItemsFrom _ _ _ hit
      have hps : p ∈ freqScored mk df (pastDatesOf df base weeks) category :=
        (List.perm_insertionSort _ _).mem_iff.mp (List.mem_of_mem_take hp)
      obtain ⟨c0, _, hpe⟩ := List.mem_map.mp hps
      refine ⟨?_, hwd, by rw [hltv, hcode]⟩
      rw [hcount, hcode, ← hpe]
      exact count_flatMap_top300 hkeys mk category _ c0
  · intro it hit hnorow
    unfold get_frequent_stocks at hit
    split_ifs at hit with h1 h2
    · simp at hit
    · simp at hit
    · obtain ⟨p, hp, hcode, hcount, hwd, hltv⟩ := mem_freqItemsFrom _ _ _ hit
      rw [hltv, latestTurnover_eq_zero, pyInt_zero]
      intro r hr
      rw [← hcode]
      exact hnorow r hr
  · unfold get_frequent_stocks
    split_ifs
    · simp
    · simp
    · apply freqItemsFrom_pairwise
      apply List.Pairwise.sublist (List.take_sublist _ _)
      haveI := freqGE_is_total df (((pastDatesOf df base weeks).getLast?).getD 0)
      haveI := freqGE_is_trans df (((pastDatesOf df base weeks).getLast?).getD 0)
      exact List.sorted_insertionSort _ _

/-- `round(x, 2)` — Python rounds half to even; no verified property depends
on the tie behaviour, so Mathlib's `round` is used. -/
def round2 (q : ℚ) : ℚ := ((round (q * 100) : ℤ) : ℚ) / 100

theorem round2_zero : round2 0 = 0 := by
  unfold round2
  norm_num

/-- `round(value, decimal_places)`: 2 decimals for the US market, 0 for KR. -/
def roundDp (mk : Mk) (q : ℚ) : ℚ :=
  if mk = Mk.us then round2 q else ((round q : ℤ) : ℚ)

/-- Volume-bar color of an up day (`'#EF535080'`). -/
def upColor : String := "#EF535080"

/-- Volume-bar color of a down day (`'#2196F380'`). -/
def downColor : String := "#2196F380"

/-- Volume-bar color of a suspension day (`'#6B728080'`, 회색). -/
def haltColor : String := "#6B728080"

structure LinePt where
  time : ℕ
  value : ℚ
deriving Repr, DecidableEq, Inhabited

structure CandlePt where
  time : ℕ
  op : ℚ
  hi : ℚ
  lo : ℚ
  close : ℚ
deriving Repr, DecidableEq, Inhabited

structure VolPt where
  time : ℕ
  value : ℚ
  color : String
deriving Repr, DecidableEq, Inhabited

/-- The six-field chart payload of `get_stock_history` (the `change` dict is
kept as a date-keyed association list in emission order). -/
structure HistOut where
  line : List LinePt
  candle : List CandlePt
  volume : List VolPt
  change : List (ℕ × ℚ)
  ma20 : List LinePt
  ma240 : List LinePt
deriving Repr, DecidableEq, Inhabited

/-- Python's `prev_close or close_price`: `None` and `0` both fall back to
the current close (`0` is falsy). -/
def pyOrClose (prevClose : Option ℚ) (close : ℚ) : ℚ :=
  match prevClose with
  | some pc => if pc = 0 then close else pc
  | none => close

/-- The loop's change computation: `(close - prev)/prev*100` when a prior
close exists and is nonzero, else 0. -/
def chgFrom (prevClose : Option ℚ) (close : ℚ) : ℚ :=
  match prevClose with
  | some pc => if pc ≠ 0 then (close - pc) / pc * 100 else 0
  | none => 0

/-- `df.sort_values('날짜')` for one instrument's rows. -/
def sortAscDate (l : List Row) : List Row :=
  List.insertionSort (fun a b => a.date ≤ b.date) l

/-- Rolling mean with `min_periods=1`: the mean of the last `w` (or fewer)
closes. -/
def maMean (w : ℕ) (cs : List ℚ) : ℚ :=
  (takeLast w cs).sum / ((takeLast w cs).length : ℚ)

/-- Walk the date-sorted rows accumulating closes, attaching the `MA20` and
`MA240` columns (`rolling(window, min_periods=1).mean()`, always defined). -/
def attachMA (closesSoFar : List ℚ) : List Row → List (Row × ℚ × ℚ)
  | [] => []
  | r :: rest =>
      (r, maMean 20 (closesSoFar ++ [r.close]), maMean 240 (closesSoFar ++ [r.close])) ::
        attachMA (closesSoFar ++ [r.close]) rest

/-- The instrument's full date-sorted series. -/
def stockFullSorted (df : List Row) (code : String) : List Row :=
  sortAscDate (df.filter (fun r => decide (r.code = code)))

/-- The visible window of `get_stock_history`: with `end_date`, the `days`
rows ending at/before it plus everything after (falling back to the whole
series when at most `days` rows precede the anchor); without, the last
`days` rows (`tail(days)`). -/
def historyVisible (df : List Row) (code : String) (days : ℕ) (endDate : Option ℕ) :
    List (Row × ℚ × ℚ) :=
  match endDate with
  | some e =>
      if days < ((attachMA [] (stockFullSorted df code)).filter
            (fun t => decide (t.1.date ≤ e))).length then
        (attachMA [] (stockFullSorted df code)).filter (fun t => decide (
          (((attachMA [] (stockFullSorted df code)).filter
              (fun t2 => decide (t2.1.date ≤ e))).getD
            (((attachMA [] (stockFullSorted df code)).filter
                (fun t2 => decide (t2.1.date ≤ e))).length - days)
            (default, 0, 0)).1.date ≤ t.1.date))
      else
        (attachMA [] (stockFullSorted df code)).filter (fun t => decide (
          ((((stockFullSorted df code).map (fun r => r.date)).min?).getD 0 ≤ t.1.date)))
  | none => takeLast days (attachMA [] (stockFullSorted df code))

/-- The per-row emission loop of `get_stock_history`, threading `prev_close`. -/
def histLoop (mk : Mk) (hasOHLC : Bool) : Option ℚ → List (Row × ℚ × ℚ) → HistOut
  | _, [] => ⟨[], [], [], [], [], []⟩
  | pc, (r, m20, m240) :: rest =>
      let out := histLoop mk hasOHLC (some r.close) rest
      ⟨LinePt.mk r.date r.close :: out.line,
       (if hasOHLC && decide (r.op = 0) then out.candle
        else (if hasOHLC then CandlePt.mk r.date r.op r.hi r.lo r.close
              else if pyOrClose pc r.close ≤ r.close then
                CandlePt.mk r.date (pyOrClose pc r.close) r.close (pyOrClose pc r.close) r.close
              else
                CandlePt.mk r.date (pyOrClose pc r.close) (pyOrClose pc r.close) r.close r.close)
          :: out.candle),
       VolPt.mk r.date r.turnover
         (if hasOHLC && decide (r.op = 0) then haltColor
          else if pyOrClose pc r.close ≤ r.close then upColor else downColor) :: out.volume,
       (r.date, round2 (chgFrom pc r.close)) :: out.change,
       LinePt.mk r.date (roundDp mk m20) :: out.ma20,
       LinePt.mk r.date (roundDp mk m240) :: out.ma240⟩

/-- `get_stock_history(stock_code, days, end_date)`.  `hasOHLC` models the
`all(col in columns for ...)` check for the 시가/고가/저가 columns, a
property of the loaded dataset. -/
def get_stock_history (mk : Mk) (hasOHLC : Bool) (df : List Row) (code : String)
    (days : ℕ) (endDate : Option ℕ) : HistOut :=
  if df.isEmpty then ⟨[], [], [], [], [], []⟩
  else if (df.filter (fun r => decide (r.code = code))).isEmpty then ⟨[], [], [], [], [], []⟩
  else histLoop mk hasOHLC none (historyVisible df code days endDate)

theorem attachMA_map_fst : ∀ (cs : List ℚ) (l : List Row),
    (attachMA cs l).map (fun t => t.1) = l := by
  intro cs l
  induction l generalizing cs with
  | nil => rfl
  | cons r rest ih => rw [attachMA]; simp [ih]

theorem historyVisible_sublist (df : List Row) (code : String) (days : ℕ)
    (endDate : Option ℕ) :
    List.Sublist (historyVisible df code days endDate)
      (attachMA [] (stockFullSorted df code)) := by
  unfold historyVisible
  cases endDate with
  | none => exact List.drop_sublist _ _
  | some e =>
      dsimp only
      split_ifs
      · exact List.filter_sublist _
      · exact List.filter_sublist _

theorem codeRows_dates_nodup {df : List Row} (h : DistinctKeys df) (code : String) :
    ((df.filter (fun r => decide (r.code = code))).map (fun r => r.date)).Nodup := by
  have h1 : ((df.filter (fun r => decide (r.code = code))).map
      (fun r => (r.code, r.date))).Nodup :=
    List.Nodup.sublist ((List.filter_sublist df).map _) h
  have h2 : (df.filter (fun r => decide (r.code = code))).map (fun r => (r.code, r.date))
      = ((df.filter (fun r => decide (r.code = code))).map
          (fun r => r.date)).map (fun d => (code, d)) := by
    rw [List.map_map]
    apply List.map_congr_left
    intro r hr
    have := (List.mem_filter.mp hr).2
    simp only [Function.comp]
    congr 1
    simpa using this.symm
  rw [h2] at h1
  exact List.Nodup.of_map _ h1

theorem historyVisible_dates_nodup {df : List Row} (h : DistinctKeys df)
    (code : String) (days : ℕ) (endDate : Option ℕ) :
    ((historyVisible df code days endDate).map (fun t => t.1.date)).Nodup := by
  have hfull : ((stockFullSorted df code).map (fun r => r.date)).Nodup := by
    unfold stockFullSorted sortAscDate
    exact (((List.perm_insertionSort _ _).map _).nodup_iff).mpr (codeRows_dates_nodup h code)
  have hattach : ((attachMA [] (stockFullSorted df code)).map (fun t => t.1.date)).Nodup := by
    have : (attachMA [] (stockFullSorted df code)).map (fun t => t.1.date)
        = ((attachMA [] (stockFullSorted df code)).map (fun t => t.1)).map
            (fun r => r.date) := by
      rw [List.map_map]
      rfl
    rw [this, attachMA_map_fst]
    exact hfull
  exact List.Nodup.sublist ((historyVisible_sublist df code days endDate).map _) hattach

theorem histLoop_line (mk : Mk) (b : Bool) : ∀ (l : List (Row × ℚ × ℚ)) (pc : Option ℚ),
    (histLoop mk b pc l).line = l.map (fun t => LinePt.mk t.1.date t.1.close) := by
  intro l
  induction l with
  | nil => intro pc; rfl
  | cons t rest ih =>
      intro pc
      rw [show t = (t.1, t.2.1, t.2.2) from rfl, histLoop]
      simp [ih]

theorem histLoop_candle_times (mk : Mk) : ∀ (l : List (Row × ℚ × ℚ)) (pc : Option ℚ),
    (histLoop mk true pc l).candle.map (fun c => c.time)
      = (l.filter (fun t => !decide (t.1.op = 0))).map (fun t => t.1.date) := by
  intro l
  induction l with
  | nil => intro pc; rfl
  | cons t rest ih =>
      intro pc
      rw [show t = (t.1, t.2.1, t.2.2) from rfl, histLoop]
      by_cases hsus : t.1.op = 0
      · simp [hsus, ih]
      · simp [hsus, ih]

theorem histLoop_volume_key (mk : Mk) : ∀ (l : List (Row × ℚ × ℚ)) (pc : Option ℚ),
    (histLoop mk true pc l).volume.map
        (fun v => (v.time, v.value, decide (v.color = haltColor)))
      = l.map (fun t => (t.1.date, t.1.turnover, decide (t.1.op = 0))) := by
  have hup : upColor ≠ haltColor := by decide
  have hdown : downColor ≠ haltColor := by decide
  intro l
  induction l with
  | nil => intro pc; rfl
  | cons t rest ih =>
      intro pc
      rw [show t = (t.1, t.2.1, t.2.2) from rfl, histLoop]
      by_cases hsus : t.1.op = 0
      · simp [hsus, ih]
      · by_cases hcmp : pyOrClose pc t.1.close ≤ t.1.close
        · simp [hsus, hcmp, ih, hup]
        · simp [hsus, hcmp, ih, hdown]

theorem histLoop_change (mk : Mk) (b : Bool) : ∀ (l : List (Row × ℚ × ℚ)) (pc : Option ℚ),
    (histLoop mk b pc l).change = (match l with
      | [] => []
      | t :: rest =>
          (t.1.date, round2 (chgFrom pc t.1.close)) ::
            (histLoop mk b (some t.1.close) rest).change) := by
  intro l pc
  cases l with
  | nil => rfl
  | cons t rest =>
      rw [show t = (t.1, t.2.1, t.2.2) from rfl, histLoop]

/-- C7.  History Builder suspension policy (OHLC columns present): a visible
row with `open = 0` never contributes a candle, still contributes its line
point and its turnover bar, and that bar is colored with the neutral halted
color; a visible row with `open ≠ 0` contributes a candle. -/
theorem C7_suspension_day_policy (mk : Mk) (df : List Row) (code : String) (days : ℕ)
    (endDate : Option ℕ) (hkeys : DistinctKeys df) :
    ∀ t ∈ historyVisible df code days endDate,
      (t.1.op = 0 →
        (∀ c ∈ (get_stock_history mk true df code days endDate).candle,
            c.time ≠ t.1.date) ∧
        (∃ lp ∈ (get_stock_history mk true df code days endDate).line,
            lp.time = t.1.date ∧ lp.value = t.1.close) ∧
        (∃ v ∈ (get_stock_history mk true df code days endDate).volume,
            v.time = t.1.date ∧ v.value = t.1.turnover ∧ v.color = haltColor) ∧
        (∀ v ∈ (get_stock_history mk true df code days endDate).volume,
            v.time = t.1.date → v.color = haltColor)) ∧
      (t.1.op ≠ 0 →
        ∃ c ∈ (get_stock_history mk true df code days endDate).candle,
          c.time = t.1.date) := by
  intro t ht
  have htA : t ∈ attachMA [] (stockFullSorted df code) :=
    (historyVisible_sublist df code days endDate).subset ht
  have htfull : t.1 ∈ stockFullSorted df code := by
    have h2 := List.mem_map_of_mem (fun t => t.1) htA
    rwa [attachMA_map_fst] at h2
  have hfc : t.1 ∈ df.filter (fun r => decide (r.code = code)) := by
    unfold stockFullSorted sortAscDate at htfull
    exact (List.perm_insertionSort _ _).mem_iff.mp htfull
  have hdf : ¬ df.isEmpty = true := by
    intro hemp
    rw [List.isEmpty_iff] at hemp
    rw [hemp] at hfc
    simp at hfc
  have hfilter : ¬ (df.filter (fun r => decide (r.code = code))).isEmpty = true := by
    intro hemp
    rw [List.isEmpty_iff] at hemp
    rw [hemp] at hfc
    simp at hfc
  have hout : get_stock_history mk true df code days endDate
      = histLoop mk true none (historyVisible df code days endDate) := by
    unfold get_stock_history
    rw [if_neg hdf, if_neg hfilter]
  have hnd := historyVisible_dates_nodup hkeys code days endDate
  have hinj := List.inj_on_of_nodup_map hnd
  rw [hout]
  constructor
  · intro hop
    refine ⟨?_, ?_, ?_, ?_⟩
    · intro c hc hceq
      have h1 := List.mem_map_of_mem (fun c => c.time) hc
      rw [histLoop_candle_times] at h1
      obtain ⟨t2, ht2, ht2d⟩ := List.mem_map.mp h1
      have ht2f := List.mem_filter.mp ht2
      have ht2ne : ¬ t2.1.op = 0 := by simpa using ht2f.2
      have : t2 = t := hinj ht2f.1 ht (ht2d.trans hceq)
      rw [this] at ht2ne
      exact ht2ne hop
    · refine ⟨LinePt.mk t.1.date t.1.close, ?_, rfl, rfl⟩
      rw [histLoop_line]
      exact List.mem_map_of_mem _ ht
    · have h1 : (t.1.date, t.1.turnover, decide (t.1.op = 0)) ∈
          (historyVisible df code days endDate).map
            (fun t => (t.1.date, t.1.turnover, decide (t.1.op = 0))) :=
        List.mem_map_of_mem _ ht
      rw [← histLoop_volume_key mk _ none] at h1
      obtain ⟨v, hv, hveq⟩ := List.mem_map.mp h1
      have hv1 : v.time = t.1.date := congrArg (fun p => p.1) hveq
      have hv2 : v.value = t.1.turnover := congrArg (fun p => p.2.1) hveq
      have hv3 : decide (v.color = haltColor) = decide (t.1.op = 0) :=
        congrArg (fun p => p.2.2) hveq
      refine ⟨v, hv, hv1, hv2, ?_⟩
      apply of_decide_eq_true
      rw [hv3]
      simpa using hop
    · intro v hv hvt
      have h1 := List.mem_map_of_mem
        (fun v => (v.time, v.value, decide (v.color = haltColor))) hv
      rw [histLoop_volume_key mk _ none] at h1
      obtain ⟨t2, ht2, ht2eq⟩ := List.mem_map.mp h1
      have ht2d : t2.1.date = v.time := congrArg (fun p => p.1) ht2eq
      have ht2c : decide (t2.1.op = 0) = decide (v.color = haltColor) :=
        congrArg (fun p => p.2.2) ht2eq
      have : t2 = t := hinj ht2 ht (ht2d.trans hvt)
      apply of_decide_eq_true
      rw [← ht2c, this]
      simpa using hop
  · intro hop
    have h1 : t ∈ (historyVisible df code days endDate).filter
        (fun t => !decide (t.1.op = 0)) :=
      List.mem_filter.mpr ⟨ht, by simpa using hop⟩
    have h2 := List.mem_map_of_mem (fun t => t.1.date) h1
    rw [← histLoop_candle_times mk _ none] at h2
    obtain ⟨c, hc, hceq⟩ := List.mem_map.mp h2
    exact ⟨c, hc, hceq⟩

/-- C10.  History Builder change map: `prev_close` is threaded only inside
the visible window, so whenever the window is nonempty and the instrument
has a dataset row strictly before the window's first date, the change entry
recorded for that first date is 0 (the genuine day-over-day change is
discarded). -/
theorem C10_change_map_window_reset (mk : Mk) (hasOHLC : Bool) (df : List Row)
    (code : String) (days : ℕ) (endDate : Option ℕ)
    (hne : historyVisible df code days endDate ≠ [])
    (hprior : ∃ r ∈ df, r.code = code ∧
        r.date < ((historyVisible df code days endDate).headD
          (default, 0, 0)).1.date) :
    (get_stock_history mk hasOHLC df code days endDate).change.lookup
      (((historyVisible df code days endDate).headD (default, 0, 0)).1.date)
      = some 0 := by
  obtain ⟨r0, hr0, hr0c, _⟩ := hprior
  have hdf : ¬ df.isEmpty = true := by
    intro hemp
    rw [List.isEmpty_iff] at hemp
    rw [hemp] at hr0
    simp at hr0
  have hfilter : ¬ (df.filter (fun r => decide (r.code = code))).isEmpty = true := by
    intro hemp
    rw [List.isEmpty_iff] at hemp
    have : r0 ∈ df.filter (fun r => decide (r.code = code)) :=
      List.mem_filter.mpr ⟨hr0, by simpa using hr0c⟩
    rw [hemp] at this
    simp at this
  have hout : get_stock_history mk hasOHLC df code days endDate
      = histLoop mk hasOHLC none (historyVisible df code days endDate) := by
    unfold get_stock_history
    rw [if_neg hdf, if_neg hfilter]
  rw [hout]
  cases hv : historyVisible df code days endDate with
  | nil => exact absurd hv hne
  | cons t rest =>
      rw [histLoop_change]
      have hchg : chgFrom none t.1.close = 0 := rfl
      simp [List.lookup, hchg, round2_zero]

/-- A pandas float cell as produced by the gap screener's rate arithmetic:
finite value, `±inf` from division by a zero base, `NaN` from a missing
lag/lead (`shift`) value or `0/0`. -/
inductive PFloat where
  | nan : PFloat
  | pinf : PFloat
  | ninf : PFloat
  | val (q : ℚ) : PFloat
deriving Repr, DecidableEq

def PFloat.isNan : PFloat → Bool
  | .nan => true
  | _ => false

/-- `(c - b) / b * 100` with IEEE/pandas semantics at `b = 0`
(`c/0 = ±inf` by the sign of `c`, `0/0 = NaN`). -/
def pdivRate (c b : ℚ) : PFloat :=
  if b = 0 then (if c = 0 then .nan else if 0 < c then .pinf else .ninf)
  else .val ((c - b) / b * 100)

/-- `x ≥ q` for a finite bound `q` (`NaN` compares false). -/
def PFloat.geQ : PFloat → ℚ → Bool
  | .nan, _ => false
  | .pinf, _ => true
  | .ninf, _ => false
  | .val x, q => decide (q ≤ x)

/-- `x ≤ q` for a finite bound `q` (`NaN` compares false). -/
def PFloat.leQ : PFloat → ℚ → Bool
  | .nan, _ => false
  | .pinf, _ => false
  | .ninf, _ => true
  | .val x, q => decide (x ≤ q)

/-- `x > 0` (`NaN` compares false). -/
def PFloat.posRate : PFloat → Bool
  | .pinf => true
  | .val x => decide (0 < x)
  | _ => false

/-- `x < 0` (`NaN` compares false). -/
def PFloat.negRate : PFloat → Bool
  | .ninf => true
  | .val x => decide (x < 0)
  | _ => false

/-- The finite payload of a rate cell (output rows only ever carry finite
rates: `±inf`/`NaN` cannot pass the primary range filter). -/
def PFloat.valD : PFloat → ℚ
  | .val q => q
  | _ => 0

/-- One row of `df_sorted` with the `shift`/rolling derived columns:
`prev_close`, `next_open`, `next_close` and `ma240`. -/
structure GRow where
  row : Row
  prevClose : Option ℚ
  nextOpen : Option ℚ
  nextClose : Option ℚ
  ma240 : Option ℚ
deriving Repr, DecidableEq

/-- `sort_values([code_col, '날짜'])`: lexicographic (code, date) order.
Codes compare lexicographically by characters (the byte-level `String.lt`
does not reduce in the kernel). -/
def codeDateLe (a b : Row) : Prop :=
  a.code.data < b.code.data ∨ (a.code = b.code ∧ a.date ≤ b.date)

instance codeDateLe_decidable : DecidableRel codeDateLe := fun a b => by
  unfold codeDateLe
  infer_instance

/-- Strict (code, date) order; `DistinctKeys` makes the sorted frame
pairwise strict. -/
def codeDateLt (a b : Row) : Prop :=
  a.code.data < b.code.data ∨ (a.code = b.code ∧ a.date < b.date)

def sortedByCodeDate (df : List Row) : List Row :=
  List.insertionSort codeDateLe df

/-- The rolling close history after processing row `r`: grown within a
(code-)group, reset at a group boundary.  This is the state of
`groupby(code)['종가'].rolling(240)` at each position of the sorted frame. -/
def nextHist (prev : Option Row) (hist : List ℚ) (r : Row) : List ℚ :=
  match prev with
  | some p => if p.code = r.code then hist ++ [r.close] else [r.close]
  | none => [r.close]

/-- Walk the (code, date)-sorted frame attaching the one-step lag
(`shift(1)`), the one-step leads (`shift(-1)`) — `None` across group
boundaries and frame edges — and the full-window 240-mean
(`rolling(240, min_periods=240)`). -/
def attachGap : Option Row → List ℚ → List Row → List GRow
  | _, _, [] => []
  | prev, hist, r :: rest =>
      GRow.mk r
        (match prev with
         | some p => if p.code = r.code then some p.close else none
         | none => none)
        (match rest with
         | [] => none
         | n :: _ => if n.code = r.code then some n.op else none)
        (match rest with
         | [] => none
         | n :: _ => if n.code = r.code then some n.close else none)
        (if 240 ≤ (nextHist prev hist r).length
         then some ((takeLast 240 (nextHist prev hist r)).sum / 240) else none)
      :: attachGap (some r) (nextHist prev hist r) rest

/-- `df_sorted` with all derived columns of `get_gap_analysis`. -/
def gapRows (df : List Row) : List GRow :=
  attachGap none [] (sortedByCodeDate df)

/-- `base_col_map.get(base_price, 'prev_close')` composed with the column
read: unknown keys fall back to `prev_close`. -/
def baseColVal (g : GRow) : String → Option ℚ
  | "prev_close" => g.prevClose
  | "open" => some g.row.op
  | "close" => some g.row.close
  | _ => g.prevClose

/-- `compare_col_map.get(compare_price, '시가')`: unknown keys fall back to
`open`. -/
def compareColVal (g : GRow) : String → Option ℚ
  | "open" => some g.row.op
  | "close" => some g.row.close
  | "next_open" => g.nextOpen
  | "next_close" => g.nextClose
  | _ => some g.row.op

/-- Key lookup without default (`base_col_map.get(extra_base)`): the extra
and detail stages are skipped when it fails. -/
def baseColKnown (s : String) : Bool :=
  decide (s = "prev_close") || decide (s = "open") || decide (s = "close")

def compareColKnown (s : String) : Bool :=
  decide (s = "open") || decide (s = "close") ||
    decide (s = "next_open") || decide (s = "next_close")

/-- `(compare − base)/base × 100` on a derived row; `NaN` when either
selected cell is missing. -/
def rateP (g : GRow) (baseK compareK : String) : PFloat :=
  match baseColVal g baseK, compareColVal g compareK with
  | some b, some c => pdivRate c b
  | _, _ => PFloat.nan

/-- Direction test of the optional stages: `up` keeps `rate > 0`, `down`
keeps `rate < 0`, any other direction string keeps everything. -/
def dirKeep (dir : String) (x : PFloat) : Bool :=
  if dir = "up" then x.posRate
  else if dir = "down" then x.negRate
  else true

/-- One optional stage (`extra` or `detail`): when the three parameters are
all supplied (non-`None`, non-empty — Python truthiness) and the two column
keys are known, drop rows with a `NaN` stage rate and apply the direction
test; otherwise the stage is a no-op. -/
def stageFilter (rows : List GRow) (b c dir : Option String) : List GRow :=
  match b, c, dir with
  | some bs, some cs, some dirs =>
      if !decide (bs = "") && !decide (cs = "") && !decide (dirs = "") then
        if baseColKnown bs && compareColKnown cs then
          rows.filter (fun g => !(rateP g bs cs).isNan && dirKeep dirs (rateP g bs cs))
        else rows
      else rows
  | _, _, _ => rows

/-- Python `str.upper`, on character lists. -/
def strUpper (s : String) : String := String.mk (s.data.map Char.toUpper)

/-- Python `str.strip`, on character lists. -/
def strTrim (s : String) : String :=
  String.mk (((s.data.dropWhile (fun c => c.isWhitespace)).reverse.dropWhile
    (fun c => c.isWhitespace)).reverse)

/-- An atom of the modelled regex fragment: `.` (any character) or a
literal character. -/
inductive RAtom where
  | adot : RAtom
  | alit (c : Char) : RAtom
deriving Repr, DecidableEq

/-- An atom with an optional postfix quantifier (`*`, `+`, `?`). -/
inductive RPiece where
  | once (a : RAtom) : RPiece
  | star (a : RAtom) : RPiece
  | plus (a : RAtom) : RPiece
  | opt (a : RAtom) : RPiece
deriving Repr, DecidableEq

/-- Python regex metacharacters outside the modelled fragment: character
classes, anchors, braces, escapes, alternation and groups. -/
def regexUnsupported (c : Char) : Bool :=
  decide (c = '^') || decide (c = '$') || decide (c = '[') || decide (c = ']') ||
  decide (c = '{') || decide (c = '}') || decide (c = '\\') || decide (c = '|') ||
  decide (c = '(') || decide (c = ')')

def mkRAtom (c : Char) : RAtom :=
  if c = '.' then RAtom.adot else RAtom.alit c

/-- Parse a pattern of the fragment (literals, `.`, postfix `*`/`+`/`?`)
into pieces; `none` for patterns outside the fragment (including a leading
or doubled quantifier, an error in Python as well). -/
def parseRegex : List Char → Option (List RPiece)
  | [] => some []
  | [c] =>
      if regexUnsupported c || decide (c = '*') || decide (c = '+') || decide (c = '?')
        then none
      else some [RPiece.once (mkRAtom c)]
  | c :: q :: rest2 =>
      if regexUnsupported c || decide (c = '*') || decide (c = '+') || decide (c = '?')
        then none
      else if q = '*' then (parseRegex rest2).map (fun ps => RPiece.star (mkRAtom c) :: ps)
      else if q = '+' then (parseRegex rest2).map (fun ps => RPiece.plus (mkRAtom c) :: ps)
      else if q = '?' then (parseRegex rest2).map (fun ps => RPiece.opt (mkRAtom c) :: ps)
      else (parseRegex (q :: rest2)).map (fun ps => RPiece.once (mkRAtom c) :: ps)

def ratomMatch : RAtom → Char → Bool
  | .adot, _ => true
  | .alit c, d => decide (c = d)

/-- Does some prefix of `cs` match the piece sequence?  The backtracking
existence semantics coincides with Python's for the fragment (greediness
does not affect whether a match exists). -/
def rmatch : List RPiece → List Char → Bool
  | [], _ => true
  | .once _ :: _, [] => false
  | .once a :: ps, c :: cs => ratomMatch a c && rmatch ps cs
  | .star a :: ps, cs =>
      rmatch ps cs ||
        (match cs with
         | [] => false
         | c :: cs2 => ratomMatch a c && rmatch (RPiece.star a :: ps) cs2)
  | .plus _ :: _, [] => false
  | .plus a :: ps, c :: cs => ratomMatch a c && rmatch (RPiece.star a :: ps) cs
  | .opt a :: ps, cs =>
      rmatch ps cs ||
        (match cs with
         | [] => false
         | c :: cs2 => ratomMatch a c && rmatch ps cs2)
  termination_by ps cs => (cs.length, ps.length)

/-- pandas `Series.str.contains(pat, na=False)` keeps its default
`regex=True`, i.e. it is Python's `re.search`: the pattern may match at any
position.  Modelled for the fragment of literal characters, `.`, `*`, `+`
and `?`; a pattern using other metacharacters is outside the modelled
fragment and falls back to the literal substring test here — the verified
statements restrict to the fragment by hypothesis. -/
def pdStrContains (s pattern : String) : Bool :=
  match parseRegex pattern.data with
  | some ps => (List.range (s.data.length + 1)).any (fun i => rmatch ps (s.data.drop i))
  | none => strContains s pattern

/-- The optional instrument filter: case-insensitive regular-expression
search against the code or the name
(`.str.upper().str.contains(filter.upper().strip(), na=False)`); `None` and
the empty string keep everything. -/
def tickerKeep (tf : Option String) (r : Row) : Bool :=
  match tf with
  | none => true
  | some t =>
      if decide (t = "") then true
      else pdStrContains (strUpper r.code) (strTrim (strUpper t)) ||
        pdStrContains (strUpper r.name) (strTrim (strUpper t))

/-- The claim's reading of the instrument filter — a literal
case-insensitive substring test.  It coincides with the code's
regular-expression search exactly when the applied pattern has no regex
metacharacters. -/
def tickerKeepSubstr (tf : Option String) (r : Row) : Bool :=
  match tf with
  | none => true
  | some t =>
      if decide (t = "") then true
      else strContains (strUpper r.code) (strTrim (strUpper t)) ||
        strContains (strUpper r.name) (strTrim (strUpper t))

/-- A character that `re.search` treats literally: not a metacharacter of
any kind. -/
def regexLiteralChar (c : Char) : Bool :=
  !(regexUnsupported c || decide (c = '*') || decide (c = '+') || decide (c = '?') ||
    decide (c = '.'))

/-- A pattern with no regex metacharacters: `re.search` with such a pattern
is exactly the substring test. -/
def regexLiteral (s : String) : Bool := s.data.all regexLiteralChar

theorem parseRegex_literal : ∀ (cs : List Char), (∀ c ∈ cs, regexLiteralChar c = true) →
    parseRegex cs = some (cs.map (fun c => RPiece.once (RAtom.alit c))) := by
  intro cs
  induction cs with
  | nil => intro _; rfl
  | cons c rest ih =>
      intro h
      have hc := h c (List.mem_cons_self c rest)
      simp only [regexLiteralChar, Bool.not_eq_true', Bool.or_eq_false_iff] at hc
      obtain ⟨⟨⟨⟨hu, hs⟩, hp⟩, hq⟩, hd⟩ := hc
      have hbad : (regexUnsupported c || decide (c = '*') || decide (c = '+') ||
          decide (c = '?')) = false := by
        simp [hu, hs, hp, hq]
      have hatom : mkRAtom c = RAtom.alit c := by
        unfold mkRAtom
        rw [if_neg (by simpa using hd)]
      cases rest with
      | nil => simp [parseRegex, hbad, hatom]
      | cons q rest2 =>
          have hq2 := h q (List.mem_cons_of_mem _ (List.mem_cons_self q rest2))
          simp only [regexLiteralChar, Bool.not_eq_true', Bool.or_eq_false_iff] at hq2
          obtain ⟨⟨⟨⟨_, hs2⟩, hp2⟩, hq3⟩, _⟩ := hq2
          have hrec := ih (fun x hx => h x (List.mem_cons_of_mem _ hx))
          simp [parseRegex, hbad, hatom,
            (by simpa using hs2 : ¬ q = '*'), (by simpa using hp2 : ¬ q = '+'),
            (by simpa using hq3 : ¬ q = '?'), hrec]

theorem rmatch_literal : ∀ (t cs : List Char),
    rmatch (t.map (fun c => RPiece.once (RAtom.alit c))) cs = t.isPrefixOf cs := by
  intro t
  induction t with
  | nil => intro cs; simp [rmatch, List.isPrefixOf]
  | cons c t2 ih =>
      intro cs
      cases cs with
      | nil => simp [rmatch, List.isPrefixOf]
      | cons d cs2 =>
          simp only [List.map_cons, rmatch, List.isPrefixOf, ratomMatch, ih]
          by_cases hcd : c = d
          · simp [hcd]
          · simp [hcd]

theorem pdStrContains_literal {s t : String} (h : regexLiteral t = true) :
    pdStrContains s t = strContains s t := by
  unfold pdStrContains
  rw [parseRegex_literal t.data (by simpa [regexLiteral, List.all_eq_true] using h)]
  unfold strContains
  simp [rmatch_literal]

theorem tickerKeep_eq_substr {tf : Option String}
    (h : tf = none ∨ ∃ t, tf = some t ∧ regexLiteral (strTrim (strUpper t)) = true)
    (r : Row) : tickerKeep tf r = tickerKeepSubstr tf r := by
  rcases h with h | ⟨t, h, hlit⟩
  · subst h; rfl
  · subst h
    show (if decide (t = "") = true then true
        else pdStrContains (strUpper r.code) (strTrim (strUpper t)) ||
          pdStrContains (strUpper r.name) (strTrim (strUpper t))) =
      (if decide (t = "") = true then true
        else strContains (strUpper r.code) (strTrim (strUpper t)) ||
          strContains (strUpper r.name) (strTrim (strUpper t)))
    by_cases ht : t = ""
    · simp [ht]
    · rw [if_neg (by simpa using ht), if_neg (by simpa using ht),
        pdStrContains_literal hlit, pdStrContains_literal hlit]

/-- Final ordering of the gap screener: date ascending, turnover descending
within a date. -/
def gapOutLe (a b : GRow) : Prop :=
  a.row.date < b.row.date ∨ (a.row.date = b.row.date ∧ b.row.turnover ≤ a.row.turnover)

instance gapOutLe_decidable : DecidableRel gapOutLe := fun a b => by
  unfold gapOutLe
  infer_instance

/-- The surviving derived rows of `get_gap_analysis`, in output order:
date-range restriction, optional instrument filter, primary rate range
filter (`dropna` + `min_rate ≤ rate ≤ max_rate`), the two optional stages,
then the final sort.  The source's intermediate `if len(...) == 0: return
[]` short-circuits are observationally equal to running the remaining
stages on the empty frame and are not reproduced. -/
def gapResultRows (df : List Row) (startD endD : ℕ) (basePrice comparePrice : String)
    (minRate maxRate : ℚ) (extraBase extraCompare extraDirection : Option String)
    (detailBase detailCompare detailDirection : Option String)
    (tickerF : Option String) : List GRow :=
  if df.isEmpty then []
  else
    List.insertionSort gapOutLe
      (stageFilter
        (stageFilter
          ((((gapRows df).filter (fun g =>
              decide (startD ≤ g.row.date) && decide (g.row.date ≤ endD))).filter
            (fun g => tickerKeep tickerF g.row)).filter
            (fun g => !(rateP g basePrice comparePrice).isNan &&
              (rateP g basePrice comparePrice).geQ minRate &&
              (rateP g basePrice comparePrice).leQ maxRate))
          extraBase extraCompare extraDirection)
        detailBase detailCompare detailDirection)

/-- `'above'` when `종가 ≥ ma240`, `'below'` when less, `None` when the
average is missing or non-positive. -/
def ma240Pos (g : GRow) : Option String :=
  match g.ma240 with
  | some m => if 0 < m then (if m ≤ g.row.close then some "above" else some "below") else none
  | none => none

/-- One output dict of `get_gap_analysis`: 날짜, 티커, 종목명, 종가 (2dp),
등락률 (2dp), 거래대금 (int), ma240 (2dp) and ma240_position. -/
structure GapItem where
  date : ℕ
  code : String
  name : String
  close : ℚ
  rate : ℚ
  turnover : ℤ
  ma240 : Option ℚ
  ma240Position : Option String
deriving Repr, DecidableEq

def mkGapItem (basePrice comparePrice : String) (g : GRow) : GapItem :=
  ⟨g.row.date, g.row.code, g.row.name, round2 g.row.close,
   round2 ((rateP g basePrice comparePrice).valD), pyInt g.row.turnover,
   (match g.ma240 with | some m => some (round2 m) | none => none),
   ma240Pos g⟩

/-- `get_gap_analysis(start_date, end_date, base_price, compare_price,
min_rate, max_rate, extra_*, detail_*, ticker_filter)`. -/
def get_gap_analysis (df : List Row) (startD endD : ℕ) (basePrice comparePrice : String)
    (minRate maxRate : ℚ) (extraBase extraCompare extraDirection : Option String)
    (detailBase detailCompare detailDirection : Option String)
    (tickerF : Option String) : List GapItem :=
  (gapResultRows df startD endD basePrice comparePrice minRate maxRate
    extraBase extraCompare extraDirection detailBase detailCompare detailDirection
    tickerF).map (mkGapItem basePrice comparePrice)

theorem gapOutLe_is_total : IsTotal GRow gapOutLe := by
  constructor
  intro a b
  unfold gapOutLe
  rcases lt_trichotomy a.row.date b.row.date with h | h | h
  · exact Or.inl (Or.inl h)
  · rcases le_total b.row.turnover a.row.turnover with h2 | h2
    · exact Or.inl (Or.inr ⟨h, h2⟩)
    · exact Or.inr (Or.inr ⟨h.symm, h2⟩)
  · exact Or.inr (Or.inl h)

theorem gapOutLe_is_trans : IsTrans GRow gapOutLe := by
  constructor
  intro a b c hab hbc
  unfold gapOutLe at hab hbc ⊢
  rcases hab with h1 | ⟨h1, h2⟩
  · rcases hbc with h3 | ⟨h3, h4⟩
    · exact Or.inl (h1.trans h3)
    · exact Or.inl (h3 ▸ h1)
  · rcases hbc with h3 | ⟨h3, h4⟩
    · exact Or.inl (h1 ▸ h3)
    · exact Or.inr ⟨h1.trans h3, h4.trans h2⟩

/-- The synthetic 3-row single-instrument series of the claim: closes
11/13/15, opens 10/12/14, so with base `prev_close` and compare `open` the
hand-computed rates are 100/11 % (day 2) and 100/13 % (day 3), day 1 having
no lag. -/
def dfG3 : List Row :=
  [⟨1, "A", "Alpha", 10, 11, 10, 11, 0, 100⟩,
   ⟨2, "A", "Alpha", 12, 13, 12, 13, 0, 100⟩,
   ⟨3, "A", "Alpha", 14, 15, 14, 15, 0, 100⟩]

/-- The two-row single-instrument dataset of the regex counterexample: the
ticker filter "." is a regex wildcard for `re.search` (the default of pandas
`.str.contains`), so it keeps every nonempty id, while as a literal
substring it keeps nothing. -/
def dfC4 : List Row :=
  [⟨1, "AB", "ABCO", 10, 11, 10, 10, 0, 100⟩,
   ⟨2, "AB", "ABCO", 11, 12, 10, 12, 20, 200⟩]

/-- Refutation of the claim's substring reading of the instrument filter:
with `ticker_filter = "."` the day-2 derived row survives the code's filter
chain (`.str.contains` performs a regex search and `.` matches any
character), but the claim's case-insensitive substring characterization
rejects it, since `"."` is not a substring of `"AB"` or `"ABCO"`. -/
theorem C4_regex_filter_counterexample :
    ¬ (∀ g, g ∈ gapResultRows dfC4 2 2 "prev_close" "open" 0 100
        none none none none none none (some ".") ↔
      (g ∈ gapRows dfC4 ∧ 2 ≤ g.row.date ∧ g.row.date ≤ 2 ∧
        tickerKeepSubstr (some ".") g.row = true ∧
        ∃ q, rateP g "prev_close" "open" = PFloat.val q ∧ 0 ≤ q ∧ q ≤ 100)) := by
  intro h
  have hmem : (⟨⟨2, "AB", "ABCO", 11, 12, 10, 12, 20, 200⟩,
      some 10, none, none, none⟩ : GRow) ∈
      gapResultRows dfC4 2 2 "prev_close" "open" 0 100
        none none none none none none (some ".") := by
    norm_num +decide [gapResultRows, gapRows, sortedByCodeDate, dfC4,
      List.insertionSort, List.orderedInsert, attachGap, nextHist, stageFilter,
      tickerKeep, pdStrContains, parseRegex, rmatch, ratomMatch, mkRAtom,
      regexUnsupported, strUpper, strTrim, rateP, baseColVal, compareColVal,
      pdivRate, PFloat.isNan, PFloat.geQ, PFloat.leQ, takeLast, codeDateLe,
      gapOutLe]
    refine Or.inl ⟨0, by norm_num, ?_⟩
    simp [rmatch, ratomMatch]
  have hsub := ((h _).mp hmem).2.2.2.1
  exact absurd hsub (by decide)

/-- C4 (amended).  Gap Screener primary stage (no extra/detail stage), for
instrument filters without regex metacharacters — where the code's
`.str.contains` regex search coincides with the claimed substring test: the
survivors are exactly the derived rows with date in `[startDate, endDate]`,
passing the optional case-insensitive substring filter, whose primary rate
is a finite value inside `[minRate, maxRate]`; the output is date-ascending
with turnover descending within a date; and on the synthetic 3-row series
the reported rows match the hand-computed rates, 2-decimal rounded. -/
theorem C4_gap_screener_primary (df : List Row) (startD endD : ℕ)
    (basePrice comparePrice : String) (minRate maxRate : ℚ) (tickerF : Option String)
    (htf : tickerF = none ∨
      ∃ t, tickerF = some t ∧ regexLiteral (strTrim (strUpper t)) = true) :
    (∀ g, g ∈ gapResultRows df startD endD basePrice comparePrice minRate maxRate
        none none none none none none tickerF ↔
      (g ∈ gapRows df ∧ startD ≤ g.row.date ∧ g.row.date ≤ endD ∧
        tickerKeepSubstr tickerF g.row = true ∧
        ∃ q, rateP g basePrice comparePrice = PFloat.val q ∧
          minRate ≤ q ∧ q ≤ maxRate)) ∧
    ((gapResultRows df startD endD basePrice comparePrice minRate maxRate
        none none none none none none tickerF).Sorted gapOutLe) ∧
    (get_gap_analysis dfG3 1 3 "prev_close" "open" 0 100
        none none none none none none none
      = [⟨2, "A", "Alpha", 13, 909/100, 100, none, none⟩,
         ⟨3, "A", "Alpha", 15, 769/100, 100, none, none⟩]) := by
  have hsf : ∀ rows : List GRow, stageFilter rows none none none = rows := fun _ => rfl
  have hbridge := tickerKeep_eq_substr htf
  refine ⟨?_, ?_, by
    norm_num +decide [get_gap_analysis, gapResultRows, gapRows, sortedByCodeDate, dfG3,
      List.insertionSort, List.orderedInsert, attachGap, nextHist, stageFilter, tickerKeep,
      rateP, baseColVal, compareColVal, pdivRate, PFloat.isNan, PFloat.geQ, PFloat.leQ,
      mkGapItem, PFloat.valD, pyInt, round2, ma240Pos, takeLast, codeDateLe, gapOutLe,
      round_eq]⟩
  · intro g
    unfold gapResultRows
    by_cases hdf : df.isEmpty
    · rw [if_pos hdf]
      rw [List.isEmpty_iff] at hdf
      subst hdf
      constructor
      · intro h
        exact absurd h (List.not_mem_nil g)
      · rintro ⟨hg, _⟩
        have hnil : gapRows ([] : List Row) = [] := rfl
        rw [hnil] at hg
        exact absurd hg (List.not_mem_nil g)
    · rw [if_neg hdf, hsf, hsf, (List.perm_insertionSort _ _).mem_iff]
      constructor
      · intro h
        obtain ⟨h1, hrate⟩ := List.mem_filter.mp h
        obtain ⟨h2, htick⟩ := List.mem_filter.mp h1
        obtain ⟨h3, hdate⟩ := List.mem_filter.mp h2
        rw [Bool.and_eq_true] at hdate
        rw [Bool.and_eq_true, Bool.and_eq_true] at hrate
        refine ⟨h3, by simpa using hdate.1, by simpa using hdate.2,
          (hbridge g.row).symm.trans htick, ?_⟩
        rcases hv : rateP g basePrice comparePrice with _ | _ | _ | q
        · rw [hv] at hrate
          simp [PFloat.isNan] at hrate
        · rw [hv] at hrate
          simp [PFloat.leQ] at hrate
        · rw [hv] at hrate
          simp [PFloat.geQ] at hrate
        · refine ⟨q, rfl, ?_, ?_⟩
          · have h4 := hrate.1.2
            rw [hv] at h4
            simpa [PFloat.geQ] using h4
          · have h4 := hrate.2
            rw [hv] at h4
            simpa [PFloat.leQ] using h4
      · rintro ⟨hg, hd1, hd2, htick, q, hq, hq1, hq2⟩
        refine List.mem_filter.mpr ⟨List.mem_filter.mpr
          ⟨List.mem_filter.mpr ⟨hg, ?_⟩, (hbridge g.row).trans htick⟩, ?_⟩
        · simp [hd1, hd2]
        · rw [hq]
          simp [PFloat.isNan, PFloat.geQ, PFloat.leQ, hq1, hq2]
  · unfold gapResultRows
    by_cases hdf : df.isEmpty
    · simp [hdf]
    · rw [if_neg hdf, hsf, hsf]
      haveI := gapOutLe_is_total
      haveI := gapOutLe_is_trans
      exact List.sorted_insertionSort _ _

theorem str_eq_of_data_eq {s t : String} (h : s.data = t.data) : s = t := by
  cases s
  cases t
  exact congrArg String.mk h

theorem codeDateLt_code_le {a b : Row} (h : codeDateLt a b) :
    a.code.data ≤ b.code.data := by
  rcases h with h | ⟨h, _⟩
  · exact le_of_lt h
  · rw [h]

/-- The closes of the instrument's rows at or before the given row's date,
in the order of the (code, date)-sorted frame: the claim's "observations up
to and including that row". -/
def runCloses (l : List Row) (r : Row) : List ℚ :=
  (l.filter (fun x => decide (x.code = r.code) && decide (x.date ≤ r.date))).map
    (fun x => x.close)

theorem codeDateLt_trans {a b c : Row} (h1 : codeDateLt a b) (h2 : codeDateLt b c) :
    codeDateLt a c := by
  rcases h1 with h1 | ⟨h1, h1d⟩
  · rcases h2 with h2 | ⟨h2, _⟩
    · exact Or.inl (h1.trans h2)
    · exact Or.inl (by rw [← h2]; exact h1)
  · rcases h2 with h2 | ⟨h2, h2d⟩
    · exact Or.inl (by rw [h1]; exact h2)
    · exact Or.inr ⟨h1.trans h2, h1d.trans h2d⟩

theorem codeDateLt_date_lt {a b : Row} (h : codeDateLt a b) (hc : a.code = b.code) :
    a.date < b.date := by
  rcases h with h | ⟨_, h⟩
  · rw [hc] at h
    exact absurd h (lt_irrefl _)
  · exact h

theorem attachGap_ma_aux (L : List Row) (hL : L.Pairwise codeDateLt) :
    ∀ (rest done : List Row) (p : Row) (hist : List ℚ),
      L = done ++ p :: rest →
      hist = ((done ++ [p]).filter (fun x => decide (x.code = p.code))).map
        (fun x => x.close) →
      ∀ g ∈ attachGap (some p) hist rest,
        g.ma240 = (if 240 ≤ (runCloses L g.row).length
          then some ((takeLast 240 (runCloses L g.row)).sum / 240) else none) := by
  intro rest
  induction rest with
  | nil =>
      intro done p hist _ _ g hg
      simp [attachGap] at hg
  | cons r rs ih =>
      intro done p hist hsplit hhist g hg
      have hL2 : L = (done ++ [p]) ++ r :: rs := by rw [hsplit]; simp
      have hLrw : List.Pairwise codeDateLt ((done ++ [p]) ++ r :: rs) := by
        rw [← hL2]; exact hL
      rcases List.pairwise_append.mp hLrw with ⟨hproc, htail, hcross⟩
      rcases List.pairwise_cons.mp htail with ⟨hr_all, _⟩
      have hpr : codeDateLt p r := hcross p (by simp) r (List.mem_cons_self r rs)
      rcases List.pairwise_append.mp hproc with ⟨_, _, hdp⟩
      have hallLt : ∀ x ∈ done ++ [p], codeDateLt x r := by
        intro x hx
        rcases List.mem_append.mp hx with hx | hx
        · exact codeDateLt_trans (hdp x hx p (List.mem_cons_self p [])) hpr
        · have hxp : x = p := by simpa using hx
          rw [hxp]
          exact hpr
      have hK1 : nextHist (some p) hist r
          = ((done ++ [p]).filter (fun x => decide (x.code = r.code))).map
              (fun x => x.close) ++ [r.close] := by
        show (if p.code = r.code then hist ++ [r.close] else [r.close]) = _
        by_cases hpc : p.code = r.code
        · rw [if_pos hpc, hhist]
          have hfe : (fun x : Row => decide (x.code = p.code))
              = (fun x : Row => decide (x.code = r.code)) := by rw [hpc]
          rw [hfe]
        · rw [if_neg hpc]
          have hnil : (done ++ [p]).filter (fun x => decide (x.code = r.code)) = [] := by
            rw [List.filter_eq_nil_iff]
            intro x hx
            rw [decide_eq_true_eq]
            intro hxc
            rcases List.mem_append.mp hx with hx2 | hx2
            · have h1 := hdp x hx2 p (List.mem_cons_self p [])
              have hle1 := codeDateLt_code_le h1
              have hle2 := codeDateLt_code_le hpr
              have hdata : p.code.data = r.code.data := by
                apply le_antisymm hle2
                rw [← hxc]
                exact hle1
              exact hpc (str_eq_of_data_eq hdata)
            · have hxp : x = p := by simpa using hx2
              rw [hxp] at hxc
              exact hpc hxc
          rw [hnil]
          simp
      have hK2 : runCloses L r
          = ((done ++ [p]).filter (fun x => decide (x.code = r.code))).map
              (fun x => x.close) ++ [r.close] := by
        unfold runCloses
        rw [hL2, List.filter_append]
        have hfp : (done ++ [p]).filter
            (fun x => decide (x.code = r.code) && decide (x.date ≤ r.date))
            = (done ++ [p]).filter (fun x => decide (x.code = r.code)) := by
          apply List.filter_congr
          intro x hx
          by_cases hxc : x.code = r.code
          · have hdlt := codeDateLt_date_lt (hallLt x hx) hxc
            simp [hxc, le_of_lt hdlt]
          · simp [hxc]
        have hrs : (r :: rs).filter
            (fun x => decide (x.code = r.code) && decide (x.date ≤ r.date))
            = [r] := by
          rw [List.filter_cons]
          have hrsnil : rs.filter
              (fun x => decide (x.code = r.code) && decide (x.date ≤ r.date)) = [] := by
            rw [List.filter_eq_nil_iff]
            intro x hx
            by_cases hxc : x.code = r.code
            · have hdlt := codeDateLt_date_lt (hr_all x hx) hxc.symm
              simp [Nat.not_le.mpr hdlt]
            · simp [hxc]
          rw [hrsnil]
          simp
        rw [hfp, hrs, List.map_append]
        rfl
      have hEq : nextHist (some p) hist r = runCloses L r := hK1.trans hK2.symm
      rcases List.mem_cons.mp hg with hg2 | hg2
      · rw [hg2]
        show (if 240 ≤ (nextHist (some p) hist r).length
            then some ((takeLast 240 (nextHist (some p) hist r)).sum / 240) else none) = _
        rw [hEq]
      · refine ih (done ++ [p]) r (nextHist (some p) hist r) hL2 ?_ g hg2
        rw [hK1]
        have hfr : ((done ++ [p]) ++ [r]).filter (fun x => decide (x.code = r.code))
            = (done ++ [p]).filter (fun x => decide (x.code = r.code)) ++ [r] := by
          rw [List.filter_append]
          simp
        rw [hfr, List.map_append]
        rfl

theorem codeDateLe_is_total : IsTotal Row codeDateLe := by
  constructor
  intro a b
  unfold codeDateLe
  rcases lt_trichotomy a.code.data b.code.data with h | h | h
  · exact Or.inl (Or.inl h)
  · have hc : a.code = b.code := str_eq_of_data_eq h
    rcases le_total a.date b.date with h2 | h2
    · exact Or.inl (Or.inr ⟨hc, h2⟩)
    · exact Or.inr (Or.inr ⟨hc.symm, h2⟩)
  · exact Or.inr (Or.inl h)

theorem codeDateLe_is_trans : IsTrans Row codeDateLe := by
  constructor
  intro a b c h1 h2
  unfold codeDateLe at h1 h2 ⊢
  rcases h1 with h1 | ⟨h1, h1d⟩
  · rcases h2 with h2 | ⟨h2, _⟩
    · exact Or.inl (h1.trans h2)
    · exact Or.inl (by rw [← h2]; exact h1)
  · rcases h2 with h2 | ⟨h2, h2d⟩
    · exact Or.inl (by rw [h1]; exact h2)
    · exact Or.inr ⟨h1.trans h2, h1d.trans h2d⟩

theorem sortedByCodeDate_pairwise_lt {df : List Row} (h : DistinctKeys df) :
    (sortedByCodeDate df).Pairwise codeDateLt := by
  have hle : (sortedByCodeDate df).Pairwise codeDateLe := by
    haveI := codeDateLe_is_total
    haveI := codeDateLe_is_trans
    exact List.sorted_insertionSort _ _
  have hkeys : ((sortedByCodeDate df).map (fun r => (r.code, r.date))).Nodup :=
    (((List.perm_insertionSort codeDateLe df).map _).nodup_iff).mpr h
  have hne : (sortedByCodeDate df).Pairwise
      (fun a b => (a.code, a.date) ≠ (b.code, b.date)) :=
    List.pairwise_map.mp hkeys
  refine (hle.and hne).imp ?_
  rintro a b ⟨hab, hkne⟩
  rcases hab with h1 | ⟨h1, h1d⟩
  · exact Or.inl h1
  · refine Or.inr ⟨h1, lt_of_le_of_ne h1d ?_⟩
    intro he
    exact hkne (by rw [h1, he])

theorem gapRows_ma {df : List Row} (h : DistinctKeys df) :
    ∀ g ∈ gapRows df,
      g.ma240 = (if 240 ≤ (runCloses (sortedByCodeDate df) g.row).length
        then some ((takeLast 240 (runCloses (sortedByCodeDate df) g.row)).sum / 240)
        else none) := by
  have hlt := sortedByCodeDate_pairwise_lt h
  intro g hg
  rw [show gapRows df = attachGap none [] (sortedByCodeDate df) from rfl] at hg
  rcases hLs : sortedByCodeDate df with _ | ⟨r0, rs⟩
  · rw [hLs] at hg
    simp [attachGap] at hg
  · rw [hLs] at hg hlt
    rcases List.pairwise_cons.mp hlt with ⟨hr0_all, _⟩
    rcases List.mem_cons.mp hg with hg2 | hg2
    · have hrc : runCloses (r0 :: rs) r0 = [r0.close] := by
        unfold runCloses
        rw [List.filter_cons]
        have hrsnil : rs.filter
            (fun x => decide (x.code = r0.code) && decide (x.date ≤ r0.date)) = [] := by
          rw [List.filter_eq_nil_iff]
          intro x hx
          by_cases hxc : x.code = r0.code
          · have hdlt := codeDateLt_date_lt (hr0_all x hx) hxc.symm
            simp [Nat.not_le.mpr hdlt]
          · simp [hxc]
        rw [hrsnil]
        simp
      rw [hg2]
      show (if 240 ≤ (nextHist none [] r0).length
          then some ((takeLast 240 (nextHist none [] r0)).sum / 240) else none) = _
      rw [show nextHist none [] r0 = [r0.close] from rfl, hrc]
    · exact attachGap_ma_aux (r0 :: rs) hlt rs [] r0 [r0.close] rfl (by simp) g hg2

theorem stageFilter_subset (rows : List GRow) (b c d : Option String) :
    ∀ g ∈ stageFilter rows b c d, g ∈ rows := by
  intro g hg
  rcases b with _ | bs
  · exact hg
  rcases c with _ | cs
  · exact hg
  rcases d with _ | ds
  · exact hg
  simp only [stageFilter] at hg
  split_ifs at hg
  · exact List.mem_of_mem_filter hg
  · exact hg
  · exact hg

theorem ma240Pos_none {g : GRow} (h : g.ma240 = none) : ma240Pos g = none := by
  unfold ma240Pos
  rw [h]

theorem ma240Pos_some {g : GRow} {m : ℚ} (h : g.ma240 = some m) :
    ma240Pos g = (if 0 < m then
      (if m ≤ g.row.close then some "above" else some "below") else none) := by
  unfold ma240Pos
  rw [h]

/-- The claim's "240-average": the mean of the instrument's last 240 closes
at or before the row's date, in date order. -/
def avg240 (df : List Row) (r : Row) : ℚ :=
  (takeLast 240 (runCloses (sortedByCodeDate df) r)).sum / 240

/-- C5.  Gap Screener `ma240_position`: for every output row, the tag is
`None` when the instrument has fewer than 240 observations up to and
including the row (full-window average, unlike the History Builder's
`min_periods=1`) or when the average is non-positive; otherwise it is
`above` when close is at least the 240-average and `below` when it is
less. -/
theorem C5_gap_ma240_classification (df : List Row) (startD endD : ℕ)
    (basePrice comparePrice : String) (minRate maxRate : ℚ)
    (eb ec ed dbs dcs dds tf : Option String) (hkeys : DistinctKeys df) :
    (get_gap_analysis df startD endD basePrice comparePrice minRate maxRate
        eb ec ed dbs dcs dds tf
      = (gapResultRows df startD endD basePrice comparePrice minRate maxRate
          eb ec ed dbs dcs dds tf).map (mkGapItem basePrice comparePrice)) ∧
    (∀ g ∈ gapResultRows df startD endD basePrice comparePrice minRate maxRate
        eb ec ed dbs dcs dds tf,
      ((df.filter (fun x => decide (x.code = g.row.code) &&
          decide (x.date ≤ g.row.date))).length < 240 →
        (mkGapItem basePrice comparePrice g).ma240Position = none) ∧
      (avg240 df g.row ≤ 0 →
        (mkGapItem basePrice comparePrice g).ma240Position = none) ∧
      (240 ≤ (df.filter (fun x => decide (x.code = g.row.code) &&
          decide (x.date ≤ g.row.date))).length →
        0 < avg240 df g.row →
        (mkGapItem basePrice comparePrice g).ma240Position
          = (if avg240 df g.row ≤ g.row.close then some "above" else some "below"))) := by
  refine ⟨rfl, ?_⟩
  intro g hg
  have hgap : g ∈ gapRows df := by
    unfold gapResultRows at hg
    by_cases hdf : df.isEmpty
    · rw [if_pos hdf] at hg
      simp at hg
    · rw [if_neg hdf] at hg
      have h1 := (List.perm_insertionSort gapOutLe _).mem_iff.mp hg
      have h2 := stageFilter_subset _ _ _ _ _ h1
      have h3 := stageFilter_subset _ _ _ _ _ h2
      have h4 := List.mem_of_mem_filter h3
      have h5 := List.mem_of_mem_filter h4
      exact List.mem_of_mem_filter h5
  have hma := gapRows_ma hkeys g hgap
  have hcount : (df.filter (fun x => decide (x.code = g.row.code) &&
      decide (x.date ≤ g.row.date))).length
      = (runCloses (sortedByCodeDate df) g.row).length := by
    unfold runCloses
    rw [List.length_map]
    exact (((List.perm_insertionSort codeDateLe df).filter _).length_eq).symm
  have hpos : (mkGapItem basePrice comparePrice g).ma240Position = ma240Pos g := rfl
  refine ⟨?_, ?_, ?_⟩
  · intro hlt
    rw [hcount] at hlt
    have hnone : g.ma240 = none := by rw [hma, if_neg (by omega)]
    rw [hpos, ma240Pos_none hnone]
  · intro havg
    rw [hpos]
    by_cases hlen : 240 ≤ (runCloses (sortedByCodeDate df) g.row).length
    · have hsome : g.ma240
          = some ((takeLast 240 (runCloses (sortedByCodeDate df) g.row)).sum / 240) := by
        rw [hma, if_pos hlen]
      rw [ma240Pos_some hsome]
      unfold avg240 at havg
      rw [if_neg (not_lt.mpr havg)]
    · have hnone : g.ma240 = none := by rw [hma, if_neg hlen]
      rw [ma240Pos_none hnone]
  · intro hlen havg
    rw [hcount] at hlen
    have hsome : g.ma240
        = some ((takeLast 240 (runCloses (sortedByCodeDate df) g.row)).sum / 240) := by
      rw [hma, if_pos hlen]
    rw [hpos, ma240Pos_some hsome]
    unfold avg240 at havg ⊢
    rw [if_pos havg]

/-- Witness dataset for the history-builder theorems: one instrument with a
suspension day (open 0) on date 1 followed by two normal days. -/
def dfH : List Row :=
  [⟨1, "A", "Alpha", 0, 10, 10, 10, 0, 100⟩,
   ⟨2, "A", "Alpha", 11, 12, 10, 12, 20, 200⟩,
   ⟨3, "A", "Alpha", 13, 14, 12, 14, 16, 300⟩]

/-- C1 witness: a date with no rows yields two empty lists. -/
theorem C1_day_slice_ranker_witness :
    (get_kr_day_data dfX 9).1 = [] ∧ (get_kr_day_data dfX 9).2 = [] :=
  (C1_day_slice_ranker dfX 9).2.2.2.2.2.2 (by decide)

/-- C2 witness: on the 5-day dataset, the 3-day scan ending at day 4
returns exactly instrument X. -/
theorem C2_consecutive_rise_scanner_witness :
    (get_consecutive_rise_stocks Mk.kr dfX 4 3 "trading_value").map (fun r => r.code)
      = ["X"] :=
  (C2_consecutive_rise_scanner Mk.kr dfX 4 3 "trading_value" (by decide)).2.2.1

/-- C3 witness: the one-row dataset at `weeks = 1` returns at most 100
items. -/
theorem C3_frequency_scanner_witness :
    (get_frequent_stocks Mk.kr dfC3 1 0 "trading_value").length ≤ 100 ∧
    (get_frequent_stocks Mk.kr dfC3 1 1 "trading_value").length ≤ 100 :=
  ⟨by decide, (C3_frequency_scanner Mk.kr dfC3 1 1 "trading_value"
    (by decide) (by decide)).1⟩

/-- C6 witness: stepping 9 index positions back from day 4 of a 5-day index
leaves the index, so the scan is empty. -/
theorem C6_pullback_scanner_witness :
    get_pullback_stocks Mk.kr dfX 4 9 "trading_value" = [] :=
  (C6_pullback_scanner Mk.kr dfX 4 9 "trading_value").2.1 (by decide)

/-- C8 witness: an absent date yields the all-empty US snapshot. -/
theorem C8_us_price_buckets_witness :
    get_us_day_data dfC8 9 = ⟨[], [], [], [], [], []⟩ :=
  (C8_us_price_buckets dfC8 9).2.2.2.2.2.2 (by decide)

/-- C5 witness: on the 3-row series the item list is the projection of the
surviving derived rows. -/
theorem C5_gap_ma240_classification_witness :
    get_gap_analysis dfG3 1 3 "prev_close" "open" 0 100
        none none none none none none none
      = (gapResultRows dfG3 1 3 "prev_close" "open" 0 100
          none none none none none none none).map (mkGapItem "prev_close" "open") :=
  (C5_gap_ma240_classification dfG3 1 3 "prev_close" "open" 0 100
    none none none none none none none (by decide)).1

/-- C7 witness: the suspended day-1 row of `dfH` produces no candle. -/
theorem C7_suspension_day_policy_witness :
    (get_stock_history Mk.kr true dfH "A" 3 none).candle.filter
      (fun c => decide (c.time = 1)) = [] := by
  have hmem : ((⟨1, "A", "Alpha", 0, 10, 10, 10, 0, 100⟩ : Row), (10 : ℚ), (10 : ℚ))
      ∈ historyVisible dfH "A" 3 none := by
    norm_num [historyVisible, stockFullSorted, sortAscDate, List.insertionSort,
      List.orderedInsert, attachMA, maMean, takeLast, dfH, codeDateLe]
  have h := (C7_suspension_day_policy Mk.kr dfH "A" 3 none (by decide) _ hmem).1 rfl
  rw [List.filter_eq_nil_iff]
  intro c hc
  simpa using h.1 c hc

/-- C10 witness: with `days = 2` and `end_date = 3` the window of `dfH`
starts at date 2 although date 1 exists, and the change entry for date 2 is
0 (the real day-over-day change is 20%). -/
theorem C10_change_map_window_reset_witness :
    (get_stock_history Mk.kr true dfH "A" 2 (some 3)).change.lookup 2 = some 0 := by
  have hhead : ((historyVisible dfH "A" 2 (some 3)).headD (default, 0, 0)).1.date = 2 := by
    norm_num [historyVisible, stockFullSorted, sortAscDate, List.insertionSort,
      List.orderedInsert, attachMA, maMean, takeLast, dfH, codeDateLe]
  have hne : historyVisible dfH "A" 2 (some 3) ≠ [] := by
    intro hcontra
    rw [hcontra] at hhead
    simp [default] at hhead
  have h := C10_change_map_window_reset Mk.kr true dfH "A" 2 (some 3) hne
    ⟨⟨1, "A", "Alpha", 0, 10, 10, 10, 0, 100⟩, by norm_num [dfH], rfl, by rw [hhead]; norm_num⟩
  rw [hhead] at h
  exact h

/-- C4 witness: the amended theorem at the synthetic 3-row series with no
instrument filter, whose concrete conjunct is the claimed hand-computed
round trip. -/
theorem C4_gap_screener_primary_witness :
    get_gap_analysis dfG3 1 3 "prev_close" "open" 0 100
        none none none none none none none
      = [⟨2, "A", "Alpha", 13, 909/100, 100, none, none⟩,
         ⟨3, "A", "Alpha", 15, 769/100, 100, none, none⟩] :=
  (C4_gap_screener_primary dfG3 1 3 "prev_close" "open" 0 100 none (Or.inl rfl)).2.2
